import Mathlib

/-!
Verification of litestreampp: a shallow embedding of the write detector,
hot/cold manager, connection pool, dynamic DB wrapper, minimal (ultrasimple)
replicator and bulk-restore engine, with theorems settling the spec claims.

Machine strings are modelled as Lean `String`; all string primitives used by
the Go code (`strings.Split`, `strings.ReplaceAll`, `strings.TrimPrefix`,
`strings.TrimSuffix`, `strings.Contains`, `path.Base`, `filepath.Join`) are
re-implemented by structural recursion over `List Char` so that every
definition evaluates inside the kernel.  Go `time.Time` is modelled as
seconds since the Unix epoch (`Nat`); `Truncate(time.Hour)` and
`Format("20060102-150000")` are modelled arithmetically (UTC).
-/

namespace Litestreampp

/-- Go `strings.HasPrefix` on character lists. -/
def isPreL : List Char → List Char → Bool
  | [], _ => true
  | _ :: _, [] => false
  | p :: ps, c :: cs => p == c && isPreL ps cs

/-- Split a character list on every non-overlapping occurrence of `sep`
(Go `strings.Split`); `fuel` bounds recursion and is instantiated with a
value large enough that it is never exhausted. -/
def splitOnL (sep : List Char) : Nat → List Char → List Char → List (List Char)
  | 0, s, acc => [acc.reverse ++ s]
  | _ + 1, [], acc => [acc.reverse]
  | fuel + 1, c :: rest, acc =>
    if isPreL sep (c :: rest) then
      acc.reverse :: splitOnL sep fuel ((c :: rest).drop sep.length) []
    else
      splitOnL sep fuel rest (c :: acc)

/-- Go `strings.Split s sep` (for nonempty `sep`). -/
def goSplit (s sep : String) : List String :=
  (splitOnL sep.data (s.data.length + 1) s.data []).map (fun l => String.mk l)

/-- Join character lists with a separator (Go `strings.Join`). -/
def joinWithL (sep : List Char) : List (List Char) → List Char
  | [] => []
  | [x] => x
  | x :: y :: rest => x ++ sep ++ joinWithL sep (y :: rest)

/-- Go `strings.ReplaceAll s pat rep` (for nonempty `pat`), via
`Join(Split(s, pat), rep)`, which is what `strings.Replace` with `n = -1`
computes. -/
def goReplaceAll (s pat rep : String) : String :=
  String.mk (joinWithL rep.data (splitOnL pat.data (s.data.length + 1) s.data []))

/-- Go `strings.Contains s sub` (for nonempty `sub`). -/
def goContains (s sub : String) : Bool :=
  (splitOnL sub.data (s.data.length + 1) s.data []).length != 1

/-- Go `strings.TrimPrefix`. -/
def goTrimPre (s pre : String) : String :=
  if isPreL pre.data s.data then String.mk (s.data.drop pre.data.length) else s

/-- Go `strings.HasSuffix`. -/
def goHasSuffix (s suf : String) : Bool :=
  isPreL suf.data.reverse s.data.reverse

/-- Go `strings.TrimSuffix`. -/
def goTrimSuffix (s suf : String) : String :=
  if goHasSuffix s suf then String.mk (s.data.take (s.data.length - suf.data.length)) else s

/-- Go `path.Base` (also `filepath.Base` on a Unix path): strip trailing
slashes, then keep everything after the final slash; `"."` for the empty
path and `"/"` for an all-slash path. -/
def goPathBase (p : String) : String :=
  if p = "" then "." else
    let q := (p.data.reverse.dropWhile (fun c => c == '/')).reverse
    if q = [] then "/" else
      String.mk ((splitOnL ['/'] (q.length + 1) q []).getLastD [])

/-- Go `filepath.Join dir name` for a nonempty `dir` already in clean form. -/
def goJoin (dir name : String) : String :=
  if dir = "" then name else dir ++ "/" ++ name

/-! ### Time: seconds since the Unix epoch, UTC -/

/-- Go `t.Truncate(time.Hour)` on an epoch-second timestamp. -/
def truncHour (t : Nat) : Nat := t / 3600 * 3600

/-- The timestamp used by `generateS3Key`: `time.Now().Add(time.Hour).Truncate(time.Hour)`. -/
def nextHourTs (t : Nat) : Nat := truncHour (t + 3600)

/-- Ceiling of a timestamp to the hour: the smallest hour boundary `≥ t`
(the spec's `ceil(now, hour)`). -/
def ceilHourTs (t : Nat) : Nat := truncHour (t + 3599)

/-- Civil date `(year, month, day)` from a days-since-epoch count
(standard era-based conversion, valid for all dates of interest). -/
def civilFromDays (z0 : Nat) : Nat × Nat × Nat :=
  let z := z0 + 719468
  let era := z / 146097
  let doe := z % 146097
  let yoe := (doe - doe / 1460 + doe / 36524 - doe / 146096) / 365
  let y := yoe + era * 400
  let doy := doe - (365 * yoe + yoe / 4 - yoe / 100)
  let mp := (5 * doy + 2) / 153
  let d := doy - (153 * mp + 2) / 5 + 1
  let m := if mp < 10 then mp + 3 else mp - 9
  if m ≤ 2 then (y + 1, m, d) else (y, m, d)

/-- Zero-pad a number below 100 to two digits. -/
def pad2 (n : Nat) : String := if n < 10 then "0" ++ toString n else toString n

/-- Zero-pad a number below 10000 to four digits. -/
def pad4 (n : Nat) : String :=
  if n < 10 then "000" ++ toString n
  else if n < 100 then "00" ++ toString n
  else if n < 1000 then "0" ++ toString n
  else toString n

/-- Go `t.Format("20060102-150000")` in UTC on an epoch-second timestamp. -/
def formatTsGo (t : Nat) : String :=
  let days := t / 86400
  let secs := t % 86400
  let c := civilFromDays days
  pad4 c.1 ++ pad2 c.2.1 ++ pad2 c.2.2 ++ "-" ++
    pad2 (secs / 3600) ++ pad2 (secs % 3600 / 60) ++ pad2 (secs % 60)

/-! ### Minimal replicator: `generateS3Key` (ultrasimple, part_012) -/

/-- The literal template placeholders; braces written via escapes. -/
def tplProject : String := "\x7b\x7bproject\x7d\x7d"

def tplDatabase : String := "\x7b\x7bdatabase\x7d\x7d"

def tplBranch : String := "\x7b\x7bbranch\x7d\x7d"

def tplTenant : String := "\x7b\x7btenant\x7d\x7d"

/-- The token-extraction loop of `generateS3Key`: walk the `/`-separated
segments; a segment following `data`, `databases`, `branches` or `tenants`
sets the corresponding token (later occurrences overwrite), the tenant with
a trailing `.db` stripped. -/
def ultraTokens (parts : List String) : String × String × String × String :=
  (parts.zip parts.tail).foldl
    (fun acc pr =>
      if pr.1 = "data" then (pr.2, acc.2.1, acc.2.2.1, acc.2.2.2)
      else if pr.1 = "databases" then (acc.1, pr.2, acc.2.2.1, acc.2.2.2)
      else if pr.1 = "branches" then (acc.1, acc.2.1, pr.2, acc.2.2.2)
      else if pr.1 = "tenants" then (acc.1, acc.2.1, acc.2.2.1, goTrimSuffix pr.2 ".db")
      else acc)
    ("", "", "", "")

/-- The expanded path template of `generateS3Key`. -/
def ultraExpandTemplate (pathTemplate dbPath : String) : String :=
  let t := ultraTokens (goSplit dbPath "/")
  goReplaceAll (goReplaceAll (goReplaceAll (goReplaceAll pathTemplate
    tplProject t.1) tplDatabase t.2.1) tplBranch t.2.2.1) tplTenant t.2.2.2

/-- `Replicator.generateS3Key` (part_012): expand the path template with the
parsed tokens, then append `/<basename minus .db>-<timestamp>.db.lz4` where
the timestamp is `now + 1h` truncated to the hour. -/
def generateS3Key (pathTemplate dbPath : String) (now : Nat) : String :=
  let key := ultraExpandTemplate pathTemplate dbPath
  let dbName := goTrimSuffix (goPathBase dbPath) ".db"
  let timestamp := formatTsGo (nextHourTs now)
  key ++ "/" ++ dbName ++ "-" ++ timestamp ++ ".db.lz4"

/-! ### Write detector (part_006) -/

/-- `WriteState` (part_006): per-database write-detection state.  The Go
struct also stores `Path`; here the path is the association key. -/
structure WriteState where
  lastModTime : Nat
  lastSize : Nat
  isHot : Bool
  hotUntil : Nat
  lastChecked : Nat
deriving DecidableEq, Repr

/-- Outcome of `os.Stat` as the scan distinguishes it: success with
`(mtime, size)`, a not-found error, or any other error. -/
inductive StatResult where
  | ok (modTime : Nat) (size : Nat)
  | notFound
  | errOther
deriving DecidableEq, Repr

/-- The scan's environment: the outcome of each `os.Stat`, the return
values of the `onPromoteToHot`/`onDemoteToCold` callbacks (`true` = nil
error), and the scan's `now`. -/
structure ScanEnv where
  stat : String → StatResult
  promoteOk : String → Bool
  demoteOk : String → Bool
  now : Nat

/-- First phase of `performScan` (part_006 lines 120-168): iterate the
tracked map (the list order models Go's map iteration order), dropping
deleted entries, marking modified entries hot, expiring stale hot entries
and building `newHotList`.  The promote/demote callback results are logged
but do not alter the state in this phase, exactly as in the source. -/
def scanPass1 (hotDuration : Nat) (env : ScanEnv) :
    List (String × WriteState) → List (String × WriteState) × List String
  | [] => ([], [])
  | (path, st) :: rest =>
    let r := scanPass1 hotDuration env rest
    match env.stat path with
    | .notFound => r
    | .errOther => ((path, st) :: r.1, r.2)
    | .ok mtime size =>
      if mtime > st.lastModTime ∨ size ≠ st.lastSize then
        ((path, { st with isHot := true, hotUntil := env.now + hotDuration,
                          lastModTime := mtime, lastSize := size,
                          lastChecked := env.now }) :: r.1,
         path :: r.2)
      else if st.isHot ∧ env.now > st.hotUntil then
        ((path, { st with isHot := false, lastChecked := env.now }) :: r.1, r.2)
      else if st.isHot then
        ((path, { st with lastChecked := env.now }) :: r.1, path :: r.2)
      else
        ((path, { st with lastChecked := env.now }) :: r.1, r.2)

/-- The capacity-eviction loop of `performScan` (lines 171-184): for each
evicted path, call `onDemoteToCold`; only on a nil error is the entry's
`IsHot` cleared. -/
def demoteEvicted (demoteOk : String → Bool) (entries : List (String × WriteState)) :
    List String → List (String × WriteState)
  | [] => entries
  | p :: rest =>
    let entries' :=
      if demoteOk p then
        entries.map (fun e => if e.1 = p then (e.1, { e.2 with isHot := false }) else e)
      else entries
    demoteEvicted demoteOk entries' rest

/-- The paths trimmed from the hot list by the capacity check: the first
`|newHotList| − maxHotDBs` positions of `newHotList`. -/
def scanEvicted (hotDuration maxHotDBs : Nat) (env : ScanEnv)
    (entries : List (String × WriteState)) : List String :=
  let hot := (scanPass1 hotDuration env entries).2
  if hot.length > maxHotDBs then hot.take (hot.length - maxHotDBs) else []

/-- `WriteDetector.performScan` (part_006 lines 110-201): phase 1 over all
tracked entries, then the max-hot trim.  Returns the updated tracked map
and the new `hotList`. -/
def performScan (hotDuration maxHotDBs : Nat) (env : ScanEnv)
    (entries : List (String × WriteState)) :
    List (String × WriteState) × List String :=
  let p1 := scanPass1 hotDuration env entries
  if p1.2.length > maxHotDBs then
    let toEvict := p1.2.length - maxHotDBs
    (demoteEvicted env.demoteOk p1.1 (p1.2.take toEvict), p1.2.drop toEvict)
  else p1

/-- The detector invariant of spec §8.1-2: every tracked path is in
`hotList` iff its `IsHot` flag is set, and `|hotList| ≤ maxHot`. -/
def detectorInv (maxHotDBs : Nat) (entries : List (String × WriteState))
    (hotList : List String) : Prop :=
  (∀ e ∈ entries, (e.1 ∈ hotList ↔ e.2.isHot = true)) ∧ hotList.length ≤ maxHotDBs

/-! ### Minimal replicator scan (ultrasimple, part_012) -/

/-- `DatabaseState` (part_012): last observed modification time and size,
and the last sync time. -/
structure DatabaseState where
  lastModTime : Nat
  lastSize : Nat
  lastSyncTime : Nat
deriving DecidableEq, Repr

/-- Map lookup on the tracked-database association list. -/
def dbFind (path : String) : List (String × DatabaseState) → Option DatabaseState
  | [] => none
  | e :: rest => if e.1 = path then some e.2 else dbFind path rest

/-- Replace the state stored under `path` (the entry exists). -/
def updEntry (path : String) (st : DatabaseState) :
    List (String × DatabaseState) → List (String × DatabaseState) :=
  List.map (fun e => if e.1 = path then (e.1, st) else e)

/-- One iteration of the `scanAndSync` loop body (part_012 lines 123-159)
on the accumulated `(databases, enqueued syncs)` pair: skip on stat error,
insert unseen paths, and enqueue a sync (recording the new state first)
when the file is new or its size or mtime changed. -/
def scanStep (stat : String → Option (Nat × Nat)) (now : Nat)
    (acc : List (String × DatabaseState) × List String) (path : String) :
    List (String × DatabaseState) × List String :=
  match stat path with
  | none => acc
  | some (mtime, size) =>
    match dbFind path acc.1 with
    | none =>
      (acc.1 ++ [(path, ⟨mtime, size, now⟩)], acc.2 ++ [path])
    | some st =>
      if size ≠ st.lastSize ∨ mtime > st.lastModTime then
        (updEntry path ⟨mtime, size, now⟩ acc.1, acc.2 ++ [path])
      else acc

/-- `Replicator.scanAndSync` (part_012 lines 108-167): fold the loop body
over the glob matches.  Returns the updated tracked map and the list of
paths for which a sync was enqueued (each enqueued sync performs exactly
one upload attempt in `syncDatabase`). -/
def scanAndSync (dbs : List (String × DatabaseState)) (ms : List String)
    (stat : String → Option (Nat × Nat)) (now : Nat) :
    List (String × DatabaseState) × List String :=
  ms.foldl (scanStep stat now) (dbs, [])

/-- The tracked state of `p` already reflects an observed `(mtime, size)`:
the stored size equals it and the stored mtime is not older, so the
change test `size ≠ lastSize ∨ mtime > lastMod` fails. -/
def upToDate (p : String) (mt sz : Nat) (dbs : List (String × DatabaseState)) : Prop :=
  ∃ st, dbFind p dbs = some st ∧ st.lastSize = sz ∧ ¬ mt > st.lastModTime

/-! ### Connection pool and LRU cache (litestreampp, connection-pool source) -/

/-- `PooledConnection`: metadata of a cached handle.  `closeFails` models
whether closing this connection (its `onClose` callback or `db.Close`)
returns an error when `closeConnectionLocked` runs. -/
structure PoolConn where
  path : String
  openedAt : Nat
  lastUsed : Nat
  useCount : Nat
  closeFails : Bool
deriving DecidableEq, Repr

/-- `ConnectionPool` state: configuration, the `connections` map (as an
association list keyed by `path`), the LRU key list (head = most recently
used, last = eviction candidate) and the counters. -/
structure PoolState where
  maxConnections : Nat
  idleTimeout : Nat
  connections : List PoolConn
  lru : List String
  currentOpen : Nat
  totalOpened : Nat
  totalClosed : Nat
deriving DecidableEq, Repr

/-- `LRUCache.Add`: move to front when present, else push front. -/
def lruAdd (key : String) (l : List String) : List String :=
  if key ∈ l then key :: l.erase key else key :: l

/-- `LRUCache.Touch`: move to front when present. -/
def lruTouch (key : String) (l : List String) : List String :=
  if key ∈ l then key :: l.erase key else l

/-- `LRUCache.Evict`: remove and return the tail key (`none` when empty,
where the Go code returns `""` and the caller skips the close). -/
def lruEvict (l : List String) : Option (String × List String) :=
  match l.getLast? with
  | none => none
  | some k => some (k, l.dropLast)

/-- Look up the connection stored under `path`. -/
def connFind (path : String) : List PoolConn → Option PoolConn
  | [] => none
  | c :: rest => if c.path = path then some c else connFind path rest

/-- Remove the connection stored under `path`. -/
def connRemove (path : String) : List PoolConn → List PoolConn
  | [] => []
  | c :: rest => if c.path = path then rest else c :: connRemove path rest

/-- Update the connection stored under `path`. -/
def connUpdate (path : String) (f : PoolConn → PoolConn) (cs : List PoolConn) :
    List PoolConn :=
  cs.map (fun c => if c.path = path then f c else c)

/-- `ConnectionPool.closeConnectionLocked`: no-op when absent; when the
`onClose` callback or `db.Close` fails the function returns early, leaving
the maps and counters untouched; otherwise remove from the map and the LRU
and update the counters. -/
def closeConnectionLocked (s : PoolState) (path : String) : PoolState :=
  match connFind path s.connections with
  | none => s
  | some c =>
    if c.closeFails then s
    else
      { s with connections := connRemove path s.connections,
               lru := s.lru.erase path,
               currentOpen := s.currentOpen - 1,
               totalClosed := s.totalClosed + 1 }

/-- `ConnectionPool.Get`: refresh and touch when already open; otherwise,
at capacity, evict the LRU tail (the eviction removes the LRU node before
`closeConnectionLocked` runs) and then open a new connection.  `openOk`
models `sql.Open` succeeding and `closeFails` is attached to the new
connection for later closes. -/
def poolGet (s : PoolState) (path : String) (now : Nat) (openOk closeFails : Bool) :
    PoolState :=
  match connFind path s.connections with
  | some _ =>
    { s with
      connections :=
        connUpdate path (fun c => { c with lastUsed := now, useCount := c.useCount + 1 })
          s.connections,
      lru := lruTouch path s.lru }
  | none =>
    let s1 :=
      if s.currentOpen ≥ s.maxConnections then
        match lruEvict s.lru with
        | none => s
        | some vl => closeConnectionLocked { s with lru := vl.2 } vl.1
      else s
    if openOk then
      { s1 with
        connections :=
          { path := path, openedAt := now, lastUsed := now, useCount := 1,
            closeFails := closeFails } :: s1.connections,
        lru := lruAdd path s1.lru,
        currentOpen := s1.currentOpen + 1,
        totalOpened := s1.totalOpened + 1 }
    else s1

/-- `ConnectionPool.Release`: refresh `lastUsed` when present. -/
def poolRelease (s : PoolState) (path : String) (now : Nat) : PoolState :=
  { s with
    connections := connUpdate path (fun c => { c with lastUsed := now }) s.connections }

/-- `ConnectionPool.Cleanup`: close every connection idle longer than the
idle timeout. -/
def poolCleanup (s : PoolState) (now : Nat) : PoolState :=
  let toClose :=
    (s.connections.filter (fun c => now - c.lastUsed > s.idleTimeout)).map PoolConn.path
  toClose.foldl closeConnectionLocked s

/-- A completed pool operation with its environment. -/
inductive PoolOp where
  | get (path : String) (now : Nat) (openOk closeFails : Bool)
  | release (path : String) (now : Nat)
  | close (path : String)
  | cleanup (now : Nat)
deriving DecidableEq, Repr

/-- Apply one pool operation. -/
def poolApply (s : PoolState) : PoolOp → PoolState
  | .get path now openOk closeFails => poolGet s path now openOk closeFails
  | .release path now => poolRelease s path now
  | .close path => closeConnectionLocked s path
  | .cleanup now => poolCleanup s now

/-- Run a sequence of pool operations. -/
def runPool (s : PoolState) (ops : List PoolOp) : PoolState :=
  ops.foldl poolApply s

/-- The pool constructed by `NewConnectionPool`. -/
def emptyPool (maxConnections idleTimeout : Nat) : PoolState :=
  { maxConnections := maxConnections, idleTimeout := idleTimeout,
    connections := [], lru := [], currentOpen := 0, totalOpened := 0, totalClosed := 0 }

/-- The pool invariants of spec §8.5: `currentOpen ≤ maxConnections`, the
LRU holds exactly the open paths, and `totalOpened − totalClosed ==
currentOpen` (stated additively over `Nat`). -/
def poolInv (s : PoolState) : Prop :=
  s.currentOpen ≤ s.maxConnections ∧
  (∀ p, p ∈ s.lru ↔ p ∈ s.connections.map PoolConn.path) ∧
  s.totalOpened = s.totalClosed + s.currentOpen

/-! ### Hot/cold manager (part_004) -/

/-- The failure environment of one `promoteToHot` call: whether
`dynamicDB.Open` succeeds, whether `createReplicaForDB` returns a non-nil
client without error, and whether `replica.Start` succeeds. -/
structure PromoteEnv where
  openOk : Bool
  clientOk : Bool
  startOk : Bool
deriving DecidableEq, Repr

/-- The manager's tier maps, reduced to their key sets: `hot`
(`hotDatabases`), `cold` (`coldDatabases`) and `hotReplicas`. -/
structure MgrState where
  hot : List String
  cold : List String
  hotReplicas : List String
deriving DecidableEq, Repr

/-- `HotColdManager.promoteToHot` (part_004 lines 192-280): no-op when
already hot; remove from cold; on open failure return the error (the cold
removal persists); create and start a replica only when a template is
configured and both client creation and start succeed; insert into hot. -/
def promoteToHot (templateConfigured : Bool) (s : MgrState) (path : String)
    (env : PromoteEnv) : MgrState :=
  if path ∈ s.hot then s
  else
    let cold' := s.cold.erase path
    if env.openOk = false then { s with cold := cold' }
    else
      { hot := path :: s.hot,
        cold := cold',
        hotReplicas :=
          if templateConfigured ∧ env.clientOk ∧ env.startOk then path :: s.hotReplicas
          else s.hotReplicas }

/-- `HotColdManager.demoteToCold` (part_004 lines 283-334): no-op when not
hot; otherwise stop and drop the replica if any, remove from hot, add to
cold. -/
def demoteToCold (s : MgrState) (path : String) : MgrState :=
  if path ∈ s.hot then
    { hot := s.hot.erase path,
      cold := if path ∈ s.cold then s.cold else path :: s.cold,
      hotReplicas := s.hotReplicas.erase path }
  else s

/-- One manager call. -/
inductive MgrOp where
  | promote (path : String) (env : PromoteEnv)
  | demote (path : String)
deriving DecidableEq, Repr

/-- Apply one manager call. -/
def mgrApply (templateConfigured : Bool) (s : MgrState) : MgrOp → MgrState
  | .promote path env => promoteToHot templateConfigured s path env
  | .demote path => demoteToCold s path

/-- Run a sequence of manager calls. -/
def runMgr (templateConfigured : Bool) (s : MgrState) (ops : List MgrOp) : MgrState :=
  ops.foldl (mgrApply templateConfigured) s

/-- The manager state built by `NewHotColdManager`: all maps empty. -/
def emptyMgr : MgrState := { hot := [], cold := [], hotReplicas := [] }

/-! ### Dynamic entry wrapper (db_dynamic.go) -/

/-- `DBLifecycleState` (db_dynamic.go): `opened` is the Go `DBStateOpen`. -/
inductive DBLifecycleState where
  | closed
  | opening
  | opened
  | closing
deriving DecidableEq, Repr

/-- `DynamicDB`, reduced to its lifecycle state and whether the underlying
`litestream.DB` handle is open. -/
structure DynDB where
  state : DBLifecycleState
  handleOpen : Bool
deriving DecidableEq, Repr

/-- `DynamicDB.Open` (db_dynamic.go lines 52-90).  Returns the error (as
`some message`, `none` = nil) and the post state.  `openOk` models the
underlying `DB.Open` succeeding; `cbPresent`/`cbOk` model the `onOpen`
callback being set and succeeding. -/
def dynOpen (d : DynDB) (openOk cbPresent cbOk : Bool) : Option String × DynDB :=
  match d.state with
  | .opened => (none, d)
  | .opening => (some "database is already opening", d)
  | .closing => (some "database is closing", d)
  | .closed =>
    if openOk = false then (some "open database", { d with state := .closed })
    else if cbPresent ∧ cbOk = false then
      (some "onOpen callback", { state := .closed, handleOpen := false })
    else (none, { state := .opened, handleOpen := true })

/-! ### Bulk restore engine (part_014) -/

/-- `databaseInfo` for a remote (S3-discovered) candidate. -/
structure DatabaseInfo where
  path : String
  s3url : String
deriving DecidableEq, Repr

/-- The logical database path of a backup key: `parts[0]` of
`strings.Split(key, "/generations/")`, i.e. everything before the first
occurrence of `/generations/`. -/
def specDbPath (key : String) : String :=
  (goSplit key "/generations/").headD ""

/-- One key's processing in the listing callback of `discoverS3Databases`
(part_014 lines 235-290), on the accumulated `(seenPaths, databases)`
pair.  `matchFn` is the doublestar matcher (`none` models a match error,
which skips the object). -/
def discoverStep (bucket basePre pattern outputDir : String)
    (matchFn : String → String → Option Bool)
    (acc : List String × List DatabaseInfo) (key : String) :
    List String × List DatabaseInfo :=
  if goContains key "/generations/" ∧ goContains key "/snapshots/" then
    let dbPath := specDbPath key
    let matched :=
      if pattern ≠ "" then
        match matchFn pattern (goTrimPre dbPath basePre) with
        | none => false
        | some b => b
      else true
    if matched then
      if dbPath ∈ acc.1 then acc
      else
        let outputPath :=
          if outputDir ≠ "" then goJoin outputDir (goPathBase dbPath)
          else goTrimPre dbPath basePre
        (dbPath :: acc.1, acc.2 ++ [⟨outputPath, "s3://" ++ bucket ++ "/" ++ dbPath⟩])
    else acc
  else acc

/-- `discoverS3Databases` in pattern mode: fold the listing callback over
the listed keys and return the discovered candidates. -/
def discoverS3Databases (bucket basePre pattern outputDir : String)
    (matchFn : String → String → Option Bool) (keys : List String) :
    List DatabaseInfo :=
  (keys.foldl (discoverStep bucket basePre pattern outputDir matchFn) ([], [])).2

/-- Modelled from the claim's words, for comparison with the source
function: a key is part of a backup iff it contains both `/generations/`
and `/snapshots/`, and its logical path is the portion before
`/generations/`. -/
def specLogicalPath (key : String) : Option String :=
  if goContains key "/generations/" ∧ goContains key "/snapshots/" then
    some (specDbPath key)
  else none

/-- Keep the first occurrence of each element (auxiliary). -/
def dedupAux (seen : List String) : List String → List String
  | [] => []
  | x :: rest =>
    if x ∈ seen then dedupAux seen rest else x :: dedupAux (x :: seen) rest

/-- Keep the first occurrence of each element. -/
def dedupKeepFirst (l : List String) : List String := dedupAux [] l

/-- Modelled from the claim's words: one candidate per distinct matching
logical path, in first-seen order, with local path `outputDir` joined with
the logical path's basename. -/
def discoverCandidatesSpec (bucket basePre pattern outputDir : String)
    (matchFn : String → String → Option Bool) (keys : List String) :
    List DatabaseInfo :=
  (dedupKeepFirst (keys.filterMap (fun key =>
    match specLogicalPath key with
    | none => none
    | some p =>
      if matchFn pattern (goTrimPre p basePre) = some true then some p else none))).map
    (fun p => ⟨goJoin outputDir (goPathBase p), "s3://" ++ bucket ++ "/" ++ p⟩)

/-- The number of candidates whose restore returned an error (`outcome i =
false` for the `i`-th candidate). -/
def restoreErrorCount (dbs : List DatabaseInfo) (outcome : Nat → Bool) : Nat :=
  ((List.range dbs.length).filter (fun i => outcome i = false)).length

/-- `RestorePatternCommand.Run` from the point where the candidate list is
fixed (part_014 lines 88-144): error when no candidate was discovered;
otherwise restore every candidate, tally errors, and return an error iff
any candidate failed. -/
def runRestorePattern (dbs : List DatabaseInfo) (outcome : Nat → Bool) :
    Option String :=
  if dbs.length = 0 then some "no databases found matching pattern"
  else if restoreErrorCount dbs outcome > 0 then some "failed to restore databases"
  else none

/-! ## Theorems -/

/-- C3 (counterexample): at a `now` lying exactly on an hour boundary
(2024-01-15 15:00:00 = 1705330800) the produced key carries the
`(now+1h).Truncate(hour)` timestamp `20240115-160000`, while
`ceil(now, hour)` is `now` itself and formats to `20240115-150000`; hence
the claim's "the timestamp equals ceil(now, hour) for every now" fails. -/
theorem generateS3Key_ceil_cex :
    generateS3Key
        (tplProject ++ "/" ++ tplDatabase ++ "/" ++ tplBranch ++ "/" ++ tplTenant)
        "/data/acme/databases/users/branches/main/tenants/tenant1.db" 1705330800 =
      "acme/users/main/tenant1/tenant1-20240115-160000.db.lz4" ∧
    formatTsGo (ceilHourTs 1705330800) = "20240115-150000" ∧
    nextHourTs 1705330800 ≠ ceilHourTs 1705330800 := by
  refine ⟨by decide, by decide, by decide⟩

/-- C3 (amended): every produced key is the template expansion, `/`, the
basename with a trailing `.db` stripped, `-`, the `now + 1h`-truncated
timestamp and `.db.lz4`; at the frozen time 2024-01-15 14:37:22
(= 1705329442) with tokens `(acme, users, main, tenant1)` the key is
exactly the one the spec requires; and the timestamp equals
`ceil(now, hour)` for every `now` that is not an exact hour boundary
(at a boundary it is one hour later). -/
theorem generateS3Key_spec :
    (∀ tpl p t, generateS3Key tpl p t =
      ultraExpandTemplate tpl p ++ "/" ++ goTrimSuffix (goPathBase p) ".db" ++ "-" ++
        formatTsGo (nextHourTs t) ++ ".db.lz4") ∧
    generateS3Key
        (tplProject ++ "/" ++ tplDatabase ++ "/" ++ tplBranch ++ "/" ++ tplTenant)
        "/data/acme/databases/users/branches/main/tenants/tenant1.db" 1705329442 =
      "acme/users/main/tenant1/tenant1-20240115-150000.db.lz4" ∧
    (∀ t, t % 3600 ≠ 0 → nextHourTs t = ceilHourTs t) := by
  refine ⟨fun tpl p t => rfl, by decide, fun t ht => ?_⟩
  unfold nextHourTs ceilHourTs truncHour
  omega

/-- C3 (witness for `generateS3Key_spec`): the frozen spec time is not an
hour boundary, so there the next-hour timestamp and the ceiling agree. -/
theorem generateS3Key_spec_witness : nextHourTs 1705329442 = ceilHourTs 1705329442 :=
  generateS3Key_spec.2.2 1705329442 (by decide)

/-- C1: concrete run of `performScan` showing that the capacity trim does
not demote the oldest entries by `hotUntil`.  Two still-hot entries,
iterated (in Go's arbitrary map order) as `b` (`hotUntil = 20`) before `a`
(`hotUntil = 10`), with `maxHot = 1`: the scan demotes `b`, the entry with
the *newest* deadline, and keeps `a`, the oldest — the code's own comment
says "Sort by HotUntil time (oldest first)" but no sort is performed and
the first list positions are evicted instead. -/
theorem performScan_evicts_newest :
    let env : ScanEnv := ⟨fun _ => .ok 0 1, fun _ => true, fun _ => true, 5⟩
    let r := performScan 100 1 env
      [("b", ⟨0, 1, true, 20, 0⟩), ("a", ⟨0, 1, true, 10, 0⟩)]
    ((r.1.lookup "b").map WriteState.isHot = some false ∧
     (r.1.lookup "a").map WriteState.isHot = some true ∧
     r.2 = ["a"]) ∧
    (10 : Nat) < 20 := by
  decide

/-- C2 (counterexample): `maxHot = 1`, two entries both modified, and the
`onDemoteToCold` callback failing for the evicted path `a`: the scan trims
`a` from the hot list but leaves its `IsHot` flag set, so `a ∈ hotList ↔
isHot(a)` fails after the scan. -/
theorem performScan_inv_cex :
    ¬ detectorInv 1
        (performScan 100 1 ⟨fun _ => .ok 0 2, fun _ => true, fun p => p != "a", 5⟩
          [("a", ⟨0, 1, false, 0, 0⟩), ("b", ⟨0, 1, false, 0, 0⟩)]).1
        (performScan 100 1 ⟨fun _ => .ok 0 2, fun _ => true, fun p => p != "a", 5⟩
          [("a", ⟨0, 1, false, 0, 0⟩), ("b", ⟨0, 1, false, 0, 0⟩)]).2 := by
  unfold detectorInv
  decide

/-- C7 (counterexample): `Open` on a database whose state is already
`Open` returns a nil error (it does not fail), contradicting the claim
that `Open` returns an error in the already-`Open` case. -/
theorem dynOpen_already_open_cex :
    (dynOpen ⟨DBLifecycleState.opened, true⟩ true true true).1 = none ∧
    (dynOpen ⟨DBLifecycleState.opened, true⟩ true true true).2 =
      ⟨DBLifecycleState.opened, true⟩ := by
  decide

/-- C7 (amended): `Open` fails fast with an error when the state is
`Opening` or `Closing`, and returns immediately with a nil error when the
state is already `Open`; in all three cases the lifecycle state and the
underlying handle are left unchanged. -/
theorem dynOpen_fails_fast :
    ∀ (h openOk cbPresent cbOk : Bool),
      dynOpen ⟨DBLifecycleState.opening, h⟩ openOk cbPresent cbOk =
        (some "database is already opening", ⟨DBLifecycleState.opening, h⟩) ∧
      dynOpen ⟨DBLifecycleState.closing, h⟩ openOk cbPresent cbOk =
        (some "database is closing", ⟨DBLifecycleState.closing, h⟩) ∧
      dynOpen ⟨DBLifecycleState.opened, h⟩ openOk cbPresent cbOk =
        (none, ⟨DBLifecycleState.opened, h⟩) :=
  fun _ _ _ _ => ⟨rfl, rfl, rfl⟩

/-- C8 (counterexample): with an empty discovered candidate list the
command returns a non-nil error ("no databases found matching pattern")
although the per-candidate error count is zero, so "non-nil error iff
errorCount > 0" fails for the empty list. -/
theorem runRestorePattern_cex :
    runRestorePattern [] (fun _ => true) = some "no databases found matching pattern" ∧
    restoreErrorCount [] (fun _ => true) = 0 := by
  decide

/-- C8 (amended): for every non-empty candidate list and every outcome
assignment, the command returns a non-nil error exactly when the number of
per-candidate restore errors is positive. -/
theorem runRestorePattern_exit :
    ∀ (dbs : List DatabaseInfo) (outcome : Nat → Bool), dbs ≠ [] →
      ((runRestorePattern dbs outcome).isSome = true ↔
        0 < restoreErrorCount dbs outcome) := by
  intro dbs outcome hne
  unfold runRestorePattern
  rw [if_neg (by simpa using hne)]
  by_cases hc : restoreErrorCount dbs outcome > 0
  · simp [hc]
  · simp [hc]

/-- C8 (witness for `runRestorePattern_exit`): a single failing candidate
makes the command exit non-zero. -/
theorem runRestorePattern_exit_witness :
    (runRestorePattern [⟨"/out/db1.db", "s3://b/acme/db1.db"⟩]
        (fun _ => false)).isSome = true :=
  (runRestorePattern_exit [⟨"/out/db1.db", "s3://b/acme/db1.db"⟩] (fun _ => false)
    (by decide)).mpr (by decide)

/-- C5 (counterexample): pool of capacity 1; `Get "a"` opens a connection
whose close will fail, then `Get "b"` evicts `a` from the LRU, the close
fails and returns early without removing `a` from the map or decrementing
`currentOpen`, and the new connection is opened anyway: afterwards
`currentOpen = 2 > maxConnections = 1` (and the LRU no longer matches the
connection map), so the claimed invariants do not survive a failing close. -/
theorem connectionPool_inv_cex :
    ¬ poolInv (runPool (emptyPool 1 5)
        [PoolOp.get "a" 0 true true, PoolOp.get "b" 1 true false]) ∧
    (runPool (emptyPool 1 5)
        [PoolOp.get "a" 0 true true, PoolOp.get "b" 1 true false]).currentOpen = 2 ∧
    (runPool (emptyPool 1 5)
        [PoolOp.get "a" 0 true true, PoolOp.get "b" 1 true false]).lru = ["b"] ∧
    (runPool (emptyPool 1 5)
        [PoolOp.get "a" 0 true true, PoolOp.get "b" 1 true false]).connections.map
        PoolConn.path = ["b", "a"] := by
  refine ⟨fun h => absurd h.1 (by decide), by decide, by decide, by decide⟩

/-- C6 (counterexample): with a replica template configured, a promotion
whose replica-client creation fails still inserts the path into `hot` but
not into `hotReplicas`, so "`hotReplicas[p]` exists iff a template is
configured" fails for `p ∈ hot`. -/
theorem hotColdManager_replica_cex :
    "a" ∈ (runMgr true emptyMgr [MgrOp.promote "a" ⟨true, false, true⟩]).hot ∧
    "a" ∉ (runMgr true emptyMgr [MgrOp.promote "a" ⟨true, false, true⟩]).hotReplicas := by
  decide

/-! ### Lemmas about the minimal replicator scan -/

theorem dbFind_append_ne {l : List (String × DatabaseState)} {p path : String}
    {st : DatabaseState} (h : p ≠ path) :
    dbFind p (l ++ [(path, st)]) = dbFind p l := by
  induction l with
  | nil =>
    simp only [List.nil_append, dbFind]
    rw [if_neg (fun h' => h h'.symm)]
  | cons e rest ih =>
    simp only [List.cons_append, dbFind]
    split <;> simp [ih]

theorem dbFind_append_self {l : List (String × DatabaseState)} {path : String}
    {st : DatabaseState} (h : dbFind path l = none) :
    dbFind path (l ++ [(path, st)]) = some st := by
  induction l with
  | nil => simp [dbFind]
  | cons e rest ih =>
    simp only [dbFind] at h
    simp only [List.cons_append, dbFind]
    split
    · simp_all
    · exact ih (by simpa [*] using h)

theorem dbFind_updEntry_ne {l : List (String × DatabaseState)} {p path : String}
    {st : DatabaseState} (h : p ≠ path) :
    dbFind p (updEntry path st l) = dbFind p l := by
  induction l with
  | nil => rfl
  | cons e rest ih =>
    simp only [updEntry, List.map] at ih ⊢
    by_cases he : e.1 = path
    · rw [if_pos he]
      simp only [dbFind]
      rw [if_neg (fun h' : e.1 = p => h (h'.symm.trans he)),
        if_neg (fun h' : e.1 = p => h (h'.symm.trans he))]
      exact ih
    · rw [if_neg he]
      simp only [dbFind]
      split
      · rfl
      · exact ih

theorem dbFind_updEntry_self {l : List (String × DatabaseState)} {path : String}
    {st st' : DatabaseState} (h : dbFind path l = some st') :
    dbFind path (updEntry path st l) = some st := by
  induction l with
  | nil => simp [dbFind] at h
  | cons e rest ih =>
    simp only [dbFind] at h
    simp only [updEntry, List.map, dbFind]
    by_cases he : e.1 = path
    · simp [he]
    · simp only [if_neg he]
      rw [if_neg he] at h
      simpa [dbFind] using ih h

theorem updEntry_keys {l : List (String × DatabaseState)} {path : String}
    {st : DatabaseState} :
    (updEntry path st l).map Prod.fst = l.map Prod.fst := by
  induction l with
  | nil => rfl
  | cons e rest ih =>
    simp only [updEntry, List.map] at ih ⊢
    split <;> simp [ih]

theorem updEntry_length {l : List (String × DatabaseState)} {path : String}
    {st : DatabaseState} :
    (updEntry path st l).length = l.length := by
  simp [updEntry]

theorem scanStep_keys_mono {stat : String → Option (Nat × Nat)} {now : Nat}
    {acc : List (String × DatabaseState) × List String} {m p : String}
    (h : p ∈ acc.1.map Prod.fst) :
    p ∈ (scanStep stat now acc m).1.map Prod.fst := by
  unfold scanStep
  split
  · exact h
  · split
    · simpa using Or.inl h
    · split
      · simpa [updEntry_keys] using h
      · exact h

theorem scanStep_len_mono {stat : String → Option (Nat × Nat)} {now : Nat}
    {acc : List (String × DatabaseState) × List String} {m : String} :
    acc.1.length ≤ (scanStep stat now acc m).1.length := by
  unfold scanStep
  split
  · exact le_refl _
  · split
    · simp
    · split
      · simp [updEntry_length]
      · exact le_refl _

theorem scanStep_find_ne {stat : String → Option (Nat × Nat)} {now : Nat}
    {acc : List (String × DatabaseState) × List String} {m p : String}
    (h : stat p = none ∨ p ≠ m) :
    dbFind p (scanStep stat now acc m).1 = dbFind p acc.1 := by
  by_cases hm : p = m
  · subst hm
    rcases h with h | h
    · unfold scanStep
      rw [h]
    · exact absurd rfl h
  · unfold scanStep
    split
    · rfl
    · split
      · exact dbFind_append_ne hm
      · split
        · exact dbFind_updEntry_ne hm
        · rfl

theorem scanFold_keys {stat : String → Option (Nat × Nat)} {now : Nat} :
    ∀ (ms : List String) (acc : List (String × DatabaseState) × List String)
      (p : String), p ∈ acc.1.map Prod.fst →
      p ∈ (ms.foldl (scanStep stat now) acc).1.map Prod.fst := by
  intro ms
  induction ms with
  | nil => intro acc p h; exact h
  | cons m rest ih =>
    intro acc p h
    exact ih (scanStep stat now acc m) p (scanStep_keys_mono h)

theorem scanFold_len {stat : String → Option (Nat × Nat)} {now : Nat} :
    ∀ (ms : List String) (acc : List (String × DatabaseState) × List String),
      acc.1.length ≤ (ms.foldl (scanStep stat now) acc).1.length := by
  intro ms
  induction ms with
  | nil => intro acc; exact le_refl _
  | cons m rest ih =>
    intro acc
    exact le_trans scanStep_len_mono (ih (scanStep stat now acc m))

theorem scanFold_unchanged {stat : String → Option (Nat × Nat)} {now : Nat} :
    ∀ (ms : List String) (acc : List (String × DatabaseState) × List String)
      (p : String), stat p = none ∨ p ∉ ms →
      dbFind p (ms.foldl (scanStep stat now) acc).1 = dbFind p acc.1 := by
  intro ms
  induction ms with
  | nil => intro acc p _; rfl
  | cons m rest ih =>
    intro acc p h
    have hstep : stat p = none ∨ p ≠ m := by
      rcases h with h | h
      · exact Or.inl h
      · exact Or.inr (fun he => h (he ▸ List.mem_cons_self m rest))
    have hrest : stat p = none ∨ p ∉ rest := by
      rcases h with h | h
      · exact Or.inl h
      · exact Or.inr (fun he => h (List.mem_cons_of_mem m he))
    rw [List.foldl_cons, ih (scanStep stat now acc m) p hrest, scanStep_find_ne hstep]

/-- C10: `scanAndSync` only ever adds tracked entries: every previously
tracked path stays tracked, the tracked count (`GetDatabaseCount`) never
decreases, and a path that is not stat-able (`stat p = none`, e.g. the
file was deleted) or no longer matches the glob keeps its stored state
unchanged. -/
theorem scanAndSync_monotone :
    ∀ (dbs : List (String × DatabaseState)) (ms : List String)
      (stat : String → Option (Nat × Nat)) (now : Nat),
      (∀ p, p ∈ dbs.map Prod.fst →
        p ∈ (scanAndSync dbs ms stat now).1.map Prod.fst) ∧
      dbs.length ≤ (scanAndSync dbs ms stat now).1.length ∧
      (∀ p, stat p = none ∨ p ∉ ms →
        dbFind p (scanAndSync dbs ms stat now).1 = dbFind p dbs) := by
  intro dbs ms stat now
  refine ⟨fun p h => scanFold_keys ms (dbs, []) p h,
    scanFold_len ms (dbs, []),
    fun p h => scanFold_unchanged ms (dbs, []) p h⟩

/-- C10 (witness for `scanAndSync_monotone`): a tracked path whose file
disappeared (`stat = none`) keeps its stored state across the scan. -/
theorem scanAndSync_monotone_witness :
    dbFind "x" (scanAndSync [("x", ⟨1, 2, 3⟩)] ["y"]
        (fun q => if q = "y" then some (5, 6) else none) 9).1 =
      dbFind "x" [("x", ⟨1, 2, 3⟩)] :=
  (scanAndSync_monotone [("x", ⟨1, 2, 3⟩)] ["y"]
      (fun q => if q = "y" then some (5, 6) else none) 9).2.2 "x" (Or.inl (by decide))

theorem scanStep_eq_new {stat : String → Option (Nat × Nat)} {now : Nat}
    {acc : List (String × DatabaseState) × List String} {m : String} {mt sz : Nat}
    (h : stat m = some (mt, sz)) (hf : dbFind m acc.1 = none) :
    scanStep stat now acc m = (acc.1 ++ [(m, ⟨mt, sz, now⟩)], acc.2 ++ [m]) := by
  simp only [scanStep, h, hf]

theorem scanStep_eq_changed {stat : String → Option (Nat × Nat)} {now : Nat}
    {acc : List (String × DatabaseState) × List String} {m : String} {mt sz : Nat}
    {st : DatabaseState} (h : stat m = some (mt, sz)) (hf : dbFind m acc.1 = some st)
    (hc : sz ≠ st.lastSize ∨ mt > st.lastModTime) :
    scanStep stat now acc m = (updEntry m ⟨mt, sz, now⟩ acc.1, acc.2 ++ [m]) := by
  simp only [scanStep, h, hf]
  rw [if_pos hc]

theorem scanStep_eq_same {stat : String → Option (Nat × Nat)} {now : Nat}
    {acc : List (String × DatabaseState) × List String} {m : String} {mt sz : Nat}
    {st : DatabaseState} (h : stat m = some (mt, sz)) (hf : dbFind m acc.1 = some st)
    (hc : ¬(sz ≠ st.lastSize ∨ mt > st.lastModTime)) :
    scanStep stat now acc m = acc := by
  simp only [scanStep, h, hf]
  rw [if_neg hc]

theorem scanStep_establishes {stat : String → Option (Nat × Nat)} {now : Nat}
    {p : String} {mt sz : Nat} (hstat : stat p = some (mt, sz))
    (acc : List (String × DatabaseState) × List String) :
    upToDate p mt sz (scanStep stat now acc p).1 := by
  cases hf : dbFind p acc.1 with
  | none =>
    rw [scanStep_eq_new hstat hf]
    exact ⟨⟨mt, sz, now⟩, dbFind_append_self hf, rfl, Nat.lt_irrefl mt⟩
  | some st =>
    by_cases hc : sz ≠ st.lastSize ∨ mt > st.lastModTime
    · rw [scanStep_eq_changed hstat hf hc]
      exact ⟨⟨mt, sz, now⟩, dbFind_updEntry_self hf, rfl, Nat.lt_irrefl mt⟩
    · rw [scanStep_eq_same hstat hf hc]
      push_neg at hc
      exact ⟨st, hf, hc.1.symm, by omega⟩

theorem scanStep_preserves {stat : String → Option (Nat × Nat)} {now : Nat}
    {p : String} {mt sz : Nat} (hstat : stat p = some (mt, sz))
    {acc : List (String × DatabaseState) × List String} {m : String}
    (h : upToDate p mt sz acc.1) :
    upToDate p mt sz (scanStep stat now acc m).1 := by
  by_cases hm : p = m
  · subst hm
    obtain ⟨st, hfind, h1, h2⟩ := h
    rw [scanStep_eq_same hstat hfind (by omega)]
    exact ⟨st, hfind, h1, h2⟩
  · obtain ⟨st, hfind, h1, h2⟩ := h
    exact ⟨st, (scanStep_find_ne (Or.inr hm)).trans hfind, h1, h2⟩

theorem scanStep_no_sync {stat : String → Option (Nat × Nat)} {now : Nat}
    {p : String} {mt sz : Nat} (hstat : stat p = some (mt, sz))
    {acc : List (String × DatabaseState) × List String} {m : String}
    (h : upToDate p mt sz acc.1) (hp : p ∉ acc.2) :
    p ∉ (scanStep stat now acc m).2 := by
  by_cases hm : p = m
  · subst hm
    obtain ⟨st, hfind, h1, h2⟩ := h
    rw [scanStep_eq_same hstat hfind (by omega)]
    exact hp
  · unfold scanStep
    split
    · exact hp
    · split
      · simp only [List.mem_append, List.mem_singleton]
        rintro (h' | h')
        · exact hp h'
        · exact hm h'
      · split
        · simp only [List.mem_append, List.mem_singleton]
          rintro (h' | h')
          · exact hp h'
          · exact hm h'
        · exact hp

theorem scanFold_preserves {stat : String → Option (Nat × Nat)} {now : Nat}
    {p : String} {mt sz : Nat} (hstat : stat p = some (mt, sz)) :
    ∀ (ms : List String) (acc : List (String × DatabaseState) × List String),
      upToDate p mt sz acc.1 →
      upToDate p mt sz ((ms.foldl (scanStep stat now) acc)).1 := by
  intro ms
  induction ms with
  | nil => intro acc h; exact h
  | cons m rest ih =>
    intro acc h
    exact ih (scanStep stat now acc m) (scanStep_preserves hstat h)

theorem scanFold_no_sync {stat : String → Option (Nat × Nat)} {now : Nat}
    {p : String} {mt sz : Nat} (hstat : stat p = some (mt, sz)) :
    ∀ (ms : List String) (acc : List (String × DatabaseState) × List String),
      upToDate p mt sz acc.1 → p ∉ acc.2 →
      p ∉ (ms.foldl (scanStep stat now) acc).2 := by
  intro ms
  induction ms with
  | nil => intro acc _ hp; exact hp
  | cons m rest ih =>
    intro acc h hp
    exact ih (scanStep stat now acc m) (scanStep_preserves hstat h)
      (scanStep_no_sync hstat h hp)

theorem scanFold_establishes {stat : String → Option (Nat × Nat)} {now : Nat}
    {p : String} {mt sz : Nat} (hstat : stat p = some (mt, sz)) :
    ∀ (ms : List String) (acc : List (String × DatabaseState) × List String),
      p ∈ ms → upToDate p mt sz (ms.foldl (scanStep stat now) acc).1 := by
  intro ms
  induction ms with
  | nil => intro acc h; exact absurd h (List.not_mem_nil p)
  | cons m rest ih =>
    intro acc h
    by_cases hm : p = m
    · subst hm
      exact scanFold_preserves hstat rest _ (scanStep_establishes hstat acc)
    · exact ih (scanStep stat now acc m) (List.mem_of_ne_of_mem hm h)

/-- C9: if a tracked file's size and modification time are unchanged
between two consecutive scans (`stat₂ p = stat₁ p = some (mt, sz)` and
`p` was scanned the first time), the second scan enqueues no sync for `p`
— and since every upload of the minimal replicator is performed by an
enqueued `syncDatabase`, it performs zero uploads for that file. -/
theorem scanAndSync_unchanged_no_upload :
    ∀ (dbs : List (String × DatabaseState)) (m1 m2 : List String)
      (stat1 stat2 : String → Option (Nat × Nat)) (now1 now2 : Nat)
      (p : String) (mt sz : Nat),
      p ∈ m1 → stat1 p = some (mt, sz) → stat2 p = some (mt, sz) →
      p ∉ (scanAndSync (scanAndSync dbs m1 stat1 now1).1 m2 stat2 now2).2 := by
  intro dbs m1 m2 stat1 stat2 now1 now2 p mt sz hp h1 h2
  have hgood : upToDate p mt sz (scanAndSync dbs m1 stat1 now1).1 :=
    scanFold_establishes h1 m1 (dbs, []) hp
  exact scanFold_no_sync h2 m2 ((scanAndSync dbs m1 stat1 now1).1, []) hgood
    (List.not_mem_nil p)

/-- C9 (witness for `scanAndSync_unchanged_no_upload`): a file observed as
`(mtime 3, size 7)` in both scans is not re-enqueued by the second scan. -/
theorem scanAndSync_unchanged_no_upload_witness :
    "x" ∉ (scanAndSync (scanAndSync [] ["x"] (fun _ => some (3, 7)) 1).1
      ["x"] (fun _ => some (3, 7)) 2).2 :=
  scanAndSync_unchanged_no_upload [] ["x"] ["x"] (fun _ => some (3, 7))
    (fun _ => some (3, 7)) 1 2 "x" 3 7 (by decide) rfl rfl

/-! ### Lemmas about the write-detector scan -/

theorem performScan_eq_no_trim {hd maxH : Nat} {env : ScanEnv}
    {es : List (String × WriteState)}
    (h : ¬ (scanPass1 hd env es).2.length > maxH) :
    performScan hd maxH env es = scanPass1 hd env es := by
  simp only [performScan]
  rw [if_neg h]

theorem performScan_eq_trim {hd maxH : Nat} {env : ScanEnv}
    {es : List (String × WriteState)}
    (h : (scanPass1 hd env es).2.length > maxH) :
    performScan hd maxH env es =
      (demoteEvicted env.demoteOk (scanPass1 hd env es).1
         ((scanPass1 hd env es).2.take ((scanPass1 hd env es).2.length - maxH)),
       (scanPass1 hd env es).2.drop ((scanPass1 hd env es).2.length - maxH)) := by
  simp only [performScan]
  rw [if_pos h]

theorem scanEvicted_eq_trim {hd maxH : Nat} {env : ScanEnv}
    {es : List (String × WriteState)}
    (h : (scanPass1 hd env es).2.length > maxH) :
    scanEvicted hd maxH env es =
      (scanPass1 hd env es).2.take ((scanPass1 hd env es).2.length - maxH) := by
  simp only [scanEvicted]
  rw [if_pos h]

theorem scanPass1_cons_notFound {hd : Nat} {env : ScanEnv} {path : String}
    {st : WriteState} {rest : List (String × WriteState)}
    (hstat : env.stat path = .notFound) :
    scanPass1 hd env ((path, st) :: rest) = scanPass1 hd env rest := by
  simp only [scanPass1, hstat]

theorem scanPass1_cons_errOther {hd : Nat} {env : ScanEnv} {path : String}
    {st : WriteState} {rest : List (String × WriteState)}
    (hstat : env.stat path = .errOther) :
    scanPass1 hd env ((path, st) :: rest) =
      ((path, st) :: (scanPass1 hd env rest).1, (scanPass1 hd env rest).2) := by
  simp only [scanPass1, hstat]

theorem scanPass1_cons_modified {hd : Nat} {env : ScanEnv} {path : String}
    {st : WriteState} {rest : List (String × WriteState)} {mtime size : Nat}
    (hstat : env.stat path = .ok mtime size)
    (hmod : mtime > st.lastModTime ∨ size ≠ st.lastSize) :
    scanPass1 hd env ((path, st) :: rest) =
      ((path, { st with
          isHot := true,
          hotUntil := env.now + hd,
          lastModTime := mtime,
          lastSize := size,
          lastChecked := env.now }) :: (scanPass1 hd env rest).1,
       path :: (scanPass1 hd env rest).2) := by
  simp only [scanPass1, hstat]
  rw [if_pos hmod]

theorem scanPass1_cons_expired {hd : Nat} {env : ScanEnv} {path : String}
    {st : WriteState} {rest : List (String × WriteState)} {mtime size : Nat}
    (hstat : env.stat path = .ok mtime size)
    (hmod : ¬(mtime > st.lastModTime ∨ size ≠ st.lastSize))
    (hexp : st.isHot = true ∧ env.now > st.hotUntil) :
    scanPass1 hd env ((path, st) :: rest) =
      ((path, { st with isHot := false, lastChecked := env.now }) ::
         (scanPass1 hd env rest).1,
       (scanPass1 hd env rest).2) := by
  simp only [scanPass1, hstat]
  rw [if_neg hmod, if_pos hexp]

theorem scanPass1_cons_still_hot {hd : Nat} {env : ScanEnv} {path : String}
    {st : WriteState} {rest : List (String × WriteState)} {mtime size : Nat}
    (hstat : env.stat path = .ok mtime size)
    (hmod : ¬(mtime > st.lastModTime ∨ size ≠ st.lastSize))
    (hexp : ¬(st.isHot = true ∧ env.now > st.hotUntil))
    (hhot : st.isHot = true) :
    scanPass1 hd env ((path, st) :: rest) =
      ((path, { st with lastChecked := env.now }) :: (scanPass1 hd env rest).1,
       path :: (scanPass1 hd env rest).2) := by
  simp only [scanPass1, hstat]
  rw [if_neg hmod, if_neg hexp, if_pos hhot]

theorem scanPass1_cons_cold {hd : Nat} {env : ScanEnv} {path : String}
    {st : WriteState} {rest : List (String × WriteState)} {mtime size : Nat}
    (hstat : env.stat path = .ok mtime size)
    (hmod : ¬(mtime > st.lastModTime ∨ size ≠ st.lastSize))
    (hexp : ¬(st.isHot = true ∧ env.now > st.hotUntil))
    (hhot : ¬ st.isHot = true) :
    scanPass1 hd env ((path, st) :: rest) =
      ((path, { st with lastChecked := env.now }) :: (scanPass1 hd env rest).1,
       (scanPass1 hd env rest).2) := by
  simp only [scanPass1, hstat]
  rw [if_neg hmod, if_neg hexp, if_neg hhot]

theorem scanPass1_keys_sublist {hd : Nat} {env : ScanEnv} :
    ∀ es : List (String × WriteState),
      ((scanPass1 hd env es).1.map Prod.fst).Sublist (es.map Prod.fst) := by
  intro es
  induction es with
  | nil => simp [scanPass1]
  | cons e rest ih =>
    obtain ⟨path, st⟩ := e
    cases hstat : env.stat path with
    | notFound =>
      rw [scanPass1_cons_notFound hstat]
      exact ih.trans (List.sublist_cons_self path _)
    | errOther =>
      rw [scanPass1_cons_errOther hstat]
      exact List.Sublist.cons₂ path ih
    | ok mtime size =>
      by_cases hmod : mtime > st.lastModTime ∨ size ≠ st.lastSize
      · rw [scanPass1_cons_modified hstat hmod]
        exact List.Sublist.cons₂ path ih
      · by_cases hexp : st.isHot = true ∧ env.now > st.hotUntil
        · rw [scanPass1_cons_expired hstat hmod hexp]
          exact List.Sublist.cons₂ path ih
        · by_cases hhot : st.isHot = true
          · rw [scanPass1_cons_still_hot hstat hmod hexp hhot]
            exact List.Sublist.cons₂ path ih
          · rw [scanPass1_cons_cold hstat hmod hexp hhot]
            exact List.Sublist.cons₂ path ih

theorem scanPass1_hot_sublist {hd : Nat} {env : ScanEnv} :
    ∀ es : List (String × WriteState),
      ((scanPass1 hd env es).2).Sublist (es.map Prod.fst) := by
  intro es
  induction es with
  | nil => simp [scanPass1]
  | cons e rest ih =>
    obtain ⟨path, st⟩ := e
    cases hstat : env.stat path with
    | notFound =>
      rw [scanPass1_cons_notFound hstat]
      exact ih.trans (List.sublist_cons_self path _)
    | errOther =>
      rw [scanPass1_cons_errOther hstat]
      exact ih.trans (List.sublist_cons_self path _)
    | ok mtime size =>
      by_cases hmod : mtime > st.lastModTime ∨ size ≠ st.lastSize
      · rw [scanPass1_cons_modified hstat hmod]
        exact List.Sublist.cons₂ path ih
      · by_cases hexp : st.isHot = true ∧ env.now > st.hotUntil
        · rw [scanPass1_cons_expired hstat hmod hexp]
          exact ih.trans (List.sublist_cons_self path _)
        · by_cases hhot : st.isHot = true
          · rw [scanPass1_cons_still_hot hstat hmod hexp hhot]
            exact List.Sublist.cons₂ path ih
          · rw [scanPass1_cons_cold hstat hmod hexp hhot]
            exact ih.trans (List.sublist_cons_self path _)

theorem scanPass1_inv {hd : Nat} {env : ScanEnv} :
    ∀ es : List (String × WriteState),
      (es.map Prod.fst).Nodup →
      (∀ e ∈ es, env.stat e.1 ≠ StatResult.errOther) →
      ∀ e ∈ (scanPass1 hd env es).1,
        (e.1 ∈ (scanPass1 hd env es).2 ↔ e.2.isHot = true) := by
  intro es
  induction es with
  | nil => intro _ _ e he; simp [scanPass1] at he
  | cons e0 rest ih =>
    obtain ⟨path, st⟩ := e0
    intro hnd hst
    have hpath : path ∉ rest.map Prod.fst := (List.nodup_cons.mp hnd).1
    have hnd' : (rest.map Prod.fst).Nodup := (List.nodup_cons.mp hnd).2
    have hst' : ∀ e ∈ rest, env.stat e.1 ≠ StatResult.errOther :=
      fun e he => hst e (List.mem_cons_of_mem _ he)
    have ihr := ih hnd' hst'
    have hkey : ∀ e ∈ (scanPass1 hd env rest).1, e.1 ≠ path := by
      intro e he heq
      exact hpath (heq ▸ (scanPass1_keys_sublist rest).mem
        (List.mem_map_of_mem Prod.fst he))
    have hhot : path ∉ (scanPass1 hd env rest).2 :=
      fun hmem => hpath ((scanPass1_hot_sublist rest).mem hmem)
    intro e he
    cases hstat : env.stat path with
    | notFound =>
      rw [scanPass1_cons_notFound hstat] at he ⊢
      exact ihr e he
    | errOther =>
      exact absurd hstat (hst ⟨path, st⟩ (List.mem_cons_self _ _))
    | ok mtime size =>
      by_cases hmod : mtime > st.lastModTime ∨ size ≠ st.lastSize
      · rw [scanPass1_cons_modified hstat hmod] at he ⊢
        rcases List.mem_cons.mp he with rfl | he'
        · simp
        · have hne := hkey e he'
          simp only [List.mem_cons, hne, false_or]
          exact ihr e he'
      · by_cases hexp : st.isHot = true ∧ env.now > st.hotUntil
        · rw [scanPass1_cons_expired hstat hmod hexp] at he ⊢
          rcases List.mem_cons.mp he with rfl | he'
          · simpa using hhot
          · exact ihr e he'
        · by_cases hisHot : st.isHot = true
          · rw [scanPass1_cons_still_hot hstat hmod hexp hisHot] at he ⊢
            rcases List.mem_cons.mp he with rfl | he'
            · simpa using hisHot
            · have hne := hkey e he'
              simp only [List.mem_cons, hne, false_or]
              exact ihr e he'
          · rw [scanPass1_cons_cold hstat hmod hexp hisHot] at he ⊢
            rcases List.mem_cons.mp he with rfl | he'
            · simp only [List.mem_cons]
              exact iff_of_false hhot (by simpa using hisHot)
            · exact ihr e he'

theorem demoteEvicted_eq {ok : String → Bool} :
    ∀ (ev : List String) (es : List (String × WriteState)),
      (∀ p ∈ ev, ok p = true) →
      demoteEvicted ok es ev =
        es.map (fun e => if e.1 ∈ ev then (e.1, { e.2 with isHot := false }) else e) := by
  intro ev
  induction ev with
  | nil =>
    intro es _
    simp [demoteEvicted]
  | cons q rest ih =>
    intro es h
    simp only [demoteEvicted]
    rw [if_pos (h q (List.mem_cons_self q rest))]
    rw [ih _ (fun p hp => h p (List.mem_cons_of_mem q hp))]
    rw [List.map_map]
    congr 1
    funext e
    obtain ⟨x, w⟩ := e
    by_cases h1 : x = q
    · by_cases h2 : x ∈ rest <;>
        simp [Function.comp, h1, h2, List.mem_cons]
    · by_cases h2 : x ∈ rest <;>
        simp [Function.comp, h1, h2, List.mem_cons]

/-- C2 (amended): after every scan in which each `stat` either succeeds or
fails with not-found, and each `onDemoteToCold` callback invoked by the
max-hot trimming succeeds, every tracked path is in `hotList` iff its
`IsHot` flag is set, and `|hotList| ≤ maxHot` (the length bound needs no
callback assumption; the membership equivalence breaks when a trim-time
demote callback fails, and `IsHot` is also left set when a transient stat
error hides a hot entry from the rebuilt list). -/
theorem performScan_inv :
    ∀ (hotDuration maxHotDBs : Nat) (env : ScanEnv)
      (entries : List (String × WriteState)),
      (entries.map Prod.fst).Nodup →
      (∀ e ∈ entries, env.stat e.1 ≠ StatResult.errOther) →
      (∀ p ∈ scanEvicted hotDuration maxHotDBs env entries, env.demoteOk p = true) →
      detectorInv maxHotDBs (performScan hotDuration maxHotDBs env entries).1
        (performScan hotDuration maxHotDBs env entries).2 := by
  intro hd maxH env es hnd hst hdem
  have hinv := @scanPass1_inv hd env es hnd hst
  unfold detectorInv
  by_cases hlen : (scanPass1 hd env es).2.length > maxH
  · have hdem' : ∀ p ∈ (scanPass1 hd env es).2.take
        ((scanPass1 hd env es).2.length - maxH), env.demoteOk p = true := by
      intro p hp
      exact hdem p (by rw [scanEvicted_eq_trim hlen]; exact hp)
    rw [performScan_eq_trim hlen]
    have hhot_nd : (scanPass1 hd env es).2.Nodup :=
      List.Nodup.sublist (scanPass1_hot_sublist es) hnd
    constructor
    · rw [demoteEvicted_eq _ _ hdem']
      intro e' he'
      obtain ⟨e, he, rfl⟩ := List.mem_map.mp he'
      have hsplit := List.take_append_drop ((scanPass1 hd env es).2.length - maxH)
        (scanPass1 hd env es).2
      have hdisj : List.Disjoint
          ((scanPass1 hd env es).2.take ((scanPass1 hd env es).2.length - maxH))
          ((scanPass1 hd env es).2.drop ((scanPass1 hd env es).2.length - maxH)) := by
        apply List.disjoint_of_nodup_append
        rw [hsplit]
        exact hhot_nd
      by_cases hev : e.1 ∈ (scanPass1 hd env es).2.take
          ((scanPass1 hd env es).2.length - maxH)
      · rw [if_pos hev]
        exact iff_of_false (fun hc => hdisj hev hc) (by simp)
      · rw [if_neg hev]
        have hiff := hinv e he
        constructor
        · intro hdrop
          exact hiff.mp (by rw [← hsplit]; exact List.mem_append_right _ hdrop)
        · intro hisHot
          have hm := hiff.mpr hisHot
          rw [← hsplit] at hm
          rcases List.mem_append.mp hm with h1 | h1
          · exact absurd h1 hev
          · exact h1
    · simp only [List.length_drop]
      omega
  · rw [performScan_eq_no_trim hlen]
    exact ⟨hinv, by omega⟩

/-- C2 (witness for `performScan_inv`): a two-entry scan with one
modification, all stats succeeding and all demote callbacks succeeding
satisfies the invariant. -/
theorem performScan_inv_witness :
    detectorInv 1
      (performScan 100 1 ⟨fun _ => .ok 0 2, fun _ => true, fun _ => true, 5⟩
        [("a", ⟨0, 1, false, 0, 0⟩), ("b", ⟨0, 1, false, 0, 0⟩)]).1
      (performScan 100 1 ⟨fun _ => .ok 0 2, fun _ => true, fun _ => true, 5⟩
        [("a", ⟨0, 1, false, 0, 0⟩), ("b", ⟨0, 1, false, 0, 0⟩)]).2 :=
  performScan_inv 100 1 ⟨fun _ => .ok 0 2, fun _ => true, fun _ => true, 5⟩
    [("a", ⟨0, 1, false, 0, 0⟩), ("b", ⟨0, 1, false, 0, 0⟩)]
    (by decide) (by decide) (by decide)

/-! ### Lemmas about the hot/cold manager -/

/-- Whether an operation's replica creation and start both succeed
(vacuously true for demotions). -/
def promoteEnvOk : MgrOp → Bool
  | .promote _ env => env.clientOk && env.startOk
  | .demote _ => true

/-- Structural well-formedness of the manager's maps: no duplicate keys
and `hotReplicas ⊆ hot`. -/
def mgrWF (s : MgrState) : Prop :=
  s.hot.Nodup ∧ s.hotReplicas.Nodup ∧ ∀ p ∈ s.hotReplicas, p ∈ s.hot

theorem promoteToHot_mem {tc : Bool} {s : MgrState} {path : String}
    {env : PromoteEnv} (h : path ∈ s.hot) :
    promoteToHot tc s path env = s := by
  simp only [promoteToHot]
  rw [if_pos h]

theorem promoteToHot_openFail {tc : Bool} {s : MgrState} {path : String}
    {env : PromoteEnv} (h : path ∉ s.hot) (ho : env.openOk = false) :
    promoteToHot tc s path env = { s with cold := s.cold.erase path } := by
  simp only [promoteToHot]
  rw [if_neg h, if_pos ho]

theorem promoteToHot_ok {tc : Bool} {s : MgrState} {path : String}
    {env : PromoteEnv} (h : path ∉ s.hot) (ho : ¬ env.openOk = false) :
    promoteToHot tc s path env =
      { hot := path :: s.hot,
        cold := s.cold.erase path,
        hotReplicas :=
          if tc = true ∧ env.clientOk = true ∧ env.startOk = true then
            path :: s.hotReplicas
          else s.hotReplicas } := by
  simp only [promoteToHot]
  rw [if_neg h, if_neg ho]

theorem demoteToCold_mem {s : MgrState} {path : String} (h : path ∈ s.hot) :
    demoteToCold s path =
      { hot := s.hot.erase path,
        cold := if path ∈ s.cold then s.cold else path :: s.cold,
        hotReplicas := s.hotReplicas.erase path } := by
  simp only [demoteToCold]
  rw [if_pos h]

theorem demoteToCold_not_mem {s : MgrState} {path : String} (h : path ∉ s.hot) :
    demoteToCold s path = s := by
  simp only [demoteToCold]
  rw [if_neg h]

theorem mgrWF_promote {tc : Bool} {s : MgrState} {path : String}
    {env : PromoteEnv} (h : mgrWF s) : mgrWF (promoteToHot tc s path env) := by
  obtain ⟨h1, h2, h3⟩ := h
  by_cases hmem : path ∈ s.hot
  · rw [promoteToHot_mem hmem]
    exact ⟨h1, h2, h3⟩
  · by_cases ho : env.openOk = false
    · rw [promoteToHot_openFail hmem ho]
      exact ⟨h1, h2, h3⟩
    · rw [promoteToHot_ok hmem ho]
      have hnr : path ∉ s.hotReplicas := fun hc => hmem (h3 path hc)
      refine ⟨List.nodup_cons.mpr ⟨hmem, h1⟩, ?_, ?_⟩
      · split
        · exact List.nodup_cons.mpr ⟨hnr, h2⟩
        · exact h2
      · intro p hp
        split at hp
        · rcases List.mem_cons.mp hp with rfl | hp'
          · exact List.mem_cons_self _ _
          · exact List.mem_cons_of_mem _ (h3 p hp')
        · exact List.mem_cons_of_mem _ (h3 p hp)

theorem mgrWF_demote {s : MgrState} {path : String} (h : mgrWF s) :
    mgrWF (demoteToCold s path) := by
  obtain ⟨h1, h2, h3⟩ := h
  by_cases hmem : path ∈ s.hot
  · rw [demoteToCold_mem hmem]
    refine ⟨h1.erase path, h2.erase path, ?_⟩
    intro p hp
    have hp' := (h2.mem_erase_iff.mp hp)
    exact (h1.mem_erase_iff).mpr ⟨hp'.1, h3 p hp'.2⟩
  · rw [demoteToCold_not_mem hmem]
    exact ⟨h1, h2, h3⟩

theorem mgrWF_apply {tc : Bool} {s : MgrState} {op : MgrOp} (h : mgrWF s) :
    mgrWF (mgrApply tc s op) := by
  cases op with
  | promote path env => exact mgrWF_promote h
  | demote path => exact mgrWF_demote h

theorem mgrWF_run {tc : Bool} :
    ∀ (ops : List MgrOp) (s : MgrState), mgrWF s → mgrWF (runMgr tc s ops) := by
  intro ops
  induction ops with
  | nil => intro s h; exact h
  | cons op rest ih =>
    intro s h
    exact ih (mgrApply tc s op) (mgrWF_apply h)

theorem mgrIff_promote {tc : Bool} {s : MgrState} {path : String}
    {env : PromoteEnv} (hWF : mgrWF s)
    (hIff : ∀ p ∈ s.hot, (p ∈ s.hotReplicas ↔ tc = true))
    (hok : env.clientOk = true ∧ env.startOk = true) :
    ∀ p ∈ (promoteToHot tc s path env).hot,
      (p ∈ (promoteToHot tc s path env).hotReplicas ↔ tc = true) := by
  obtain ⟨h1, h2, h3⟩ := hWF
  by_cases hmem : path ∈ s.hot
  · rw [promoteToHot_mem hmem]
    exact hIff
  · by_cases ho : env.openOk = false
    · rw [promoteToHot_openFail hmem ho]
      exact hIff
    · rw [promoteToHot_ok hmem ho]
      intro p hp
      rcases List.mem_cons.mp hp with rfl | hp'
      · cases htc : tc with
        | true =>
          rw [if_pos ⟨rfl, hok.1, hok.2⟩]
          simp
        | false =>
          rw [if_neg (fun hc => by simp [htc] at hc)]
          have hnr : p ∉ s.hotReplicas := fun hc => hmem (h3 p hc)
          simp [hnr, htc]
      · have hne : p ≠ path := fun hc => hmem (hc ▸ hp')
        have base := hIff p hp'
        split
        · simp only [List.mem_cons, hne, false_or]
          exact base
        · exact base

theorem mgrIff_demote {tc : Bool} {s : MgrState} {path : String}
    (hWF : mgrWF s)
    (hIff : ∀ p ∈ s.hot, (p ∈ s.hotReplicas ↔ tc = true)) :
    ∀ p ∈ (demoteToCold s path).hot,
      (p ∈ (demoteToCold s path).hotReplicas ↔ tc = true) := by
  obtain ⟨h1, h2, h3⟩ := hWF
  by_cases hmem : path ∈ s.hot
  · rw [demoteToCold_mem hmem]
    intro p hp
    have hp' := h1.mem_erase_iff.mp hp
    rw [h2.mem_erase_iff]
    have base := hIff p hp'.2
    constructor
    · intro hc
      exact base.mp hc.2
    · intro htc
      exact ⟨hp'.1, base.mpr htc⟩
  · rw [demoteToCold_not_mem hmem]
    exact hIff

theorem mgrRun_iff {tc : Bool} :
    ∀ (ops : List MgrOp) (s : MgrState), mgrWF s →
      (∀ p ∈ s.hot, (p ∈ s.hotReplicas ↔ tc = true)) →
      (∀ op ∈ ops, promoteEnvOk op = true) →
      ∀ p ∈ (runMgr tc s ops).hot,
        (p ∈ (runMgr tc s ops).hotReplicas ↔ tc = true) := by
  intro ops
  induction ops with
  | nil => intro s _ hIff _; exact hIff
  | cons op rest ih =>
    intro s hWF hIff hok
    have hok' : ∀ op' ∈ rest, promoteEnvOk op' = true :=
      fun op' h => hok op' (List.mem_cons_of_mem _ h)
    apply ih (mgrApply tc s op) (mgrWF_apply hWF)
    · cases op with
      | promote path env =>
        have := hok _ (List.mem_cons_self _ _)
        simp only [promoteEnvOk, Bool.and_eq_true] at this
        exact mgrIff_promote hWF hIff this
      | demote path => exact mgrIff_demote hWF hIff
    · exact hok'

/-- C6 (amended): after every sequence of `promoteToHot`/`demoteToCold`
calls, `hotReplicas` only holds hot paths (so the "exists implies
configured and hot" direction always holds and `hotReplicas` is empty
when no template is configured), and provided every promotion's replica
client creation and `Start` succeed, a path in `hot` has a `hotReplicas`
entry iff a replica template is configured.  When creation or start
fails, promotion still succeeds but the entry is absent. -/
theorem hotColdManager_replica_inv :
    ∀ (tc : Bool) (ops : List MgrOp),
      (∀ p ∈ (runMgr tc emptyMgr ops).hotReplicas, p ∈ (runMgr tc emptyMgr ops).hot) ∧
      ((∀ op ∈ ops, promoteEnvOk op = true) →
        ∀ p ∈ (runMgr tc emptyMgr ops).hot,
          (p ∈ (runMgr tc emptyMgr ops).hotReplicas ↔ tc = true)) := by
  intro tc ops
  have hWF0 : mgrWF emptyMgr := ⟨List.nodup_nil, List.nodup_nil, by simp [emptyMgr]⟩
  constructor
  · exact (mgrWF_run ops emptyMgr hWF0).2.2
  · intro hok
    exact mgrRun_iff ops emptyMgr hWF0 (by simp [emptyMgr]) hok

/-- C6 (witness for `hotColdManager_replica_inv`): with a template
configured and a fully successful promotion, the promoted path has a
replica entry. -/
theorem hotColdManager_replica_inv_witness :
    "a" ∈ (runMgr true emptyMgr [MgrOp.promote "a" ⟨true, true, true⟩]).hotReplicas ↔
      true = true :=
  (hotColdManager_replica_inv true [MgrOp.promote "a" ⟨true, true, true⟩]).2
    (by decide) "a" (by decide)

/-! ### Lemmas about remote bulk-restore discovery -/

theorem discover_go {bucket basePre pattern outputDir : String}
    {matchFn : String → String → Option Bool}
    (hout : outputDir ≠ "") (hpat : pattern ≠ "") :
    ∀ (keys : List String) (seen : List String) (cands : List DatabaseInfo),
      (keys.foldl (discoverStep bucket basePre pattern outputDir matchFn)
          (seen, cands)).2 =
        cands ++ (dedupAux seen (keys.filterMap (fun key =>
          match specLogicalPath key with
          | none => none
          | some p =>
            if matchFn pattern (goTrimPre p basePre) = some true then some p
            else none))).map
          (fun p => ⟨goJoin outputDir (goPathBase p), "s3://" ++ bucket ++ "/" ++ p⟩) := by
  intro keys
  induction keys with
  | nil => intro seen cands; simp [dedupAux]
  | cons key rest ih =>
    intro seen cands
    rw [List.foldl_cons, List.filterMap_cons]
    by_cases hb : goContains key "/generations/" = true ∧ goContains key "/snapshots/" = true
    · cases hm : matchFn pattern (goTrimPre (specDbPath key) basePre) with
      | none =>
        have hstep : discoverStep bucket basePre pattern outputDir matchFn (seen, cands) key
            = (seen, cands) := by
          simp [discoverStep, hb.1, hb.2, hpat, hm]
        have hsel : (match specLogicalPath key with
            | none => none
            | some p =>
              if matchFn pattern (goTrimPre p basePre) = some true then some p
              else none) = (none : Option String) := by
          simp [specLogicalPath, hb.1, hb.2, hm]
        rw [hstep, hsel, ih seen cands]
      | some b =>
        cases b with
        | false =>
          have hstep : discoverStep bucket basePre pattern outputDir matchFn (seen, cands) key
              = (seen, cands) := by
            simp [discoverStep, hb.1, hb.2, hpat, hm]
          have hsel : (match specLogicalPath key with
              | none => none
              | some p =>
                if matchFn pattern (goTrimPre p basePre) = some true then some p
                else none) = (none : Option String) := by
            simp [specLogicalPath, hb.1, hb.2, hm]
          rw [hstep, hsel, ih seen cands]
        | true =>
          have hsel : (match specLogicalPath key with
              | none => none
              | some p =>
                if matchFn pattern (goTrimPre p basePre) = some true then some p
                else none) =
              some (specDbPath key) := by
            simp [specLogicalPath, hb.1, hb.2, hm]
          rw [hsel]
          by_cases hseen : (specDbPath key) ∈ seen
          · have hstep : discoverStep bucket basePre pattern outputDir matchFn
                (seen, cands) key = (seen, cands) := by
              simp [discoverStep, hb.1, hb.2, hpat, hm, hseen]
            rw [hstep, ih seen cands]
            simp only [dedupAux]
            rw [if_pos hseen]
          · have hstep : discoverStep bucket basePre pattern outputDir matchFn
                (seen, cands) key =
                ((specDbPath key) :: seen,
                 cands ++ [⟨goJoin outputDir (goPathBase (specDbPath key)),
                   "s3://" ++ bucket ++ "/" ++ (specDbPath key)⟩]) := by
              simp [discoverStep, hb.1, hb.2, hpat, hm, hseen, hout]
            rw [hstep, ih]
            simp only [dedupAux]
            rw [if_neg hseen]
            simp
    · have hstep : discoverStep bucket basePre pattern outputDir matchFn (seen, cands) key
          = (seen, cands) := by
        simp only [discoverStep]
        rw [if_neg hb]
      have hsel : (match specLogicalPath key with
          | none => none
          | some p =>
            if matchFn pattern (goTrimPre p basePre) = some true then some p
            else none) = (none : Option String) := by
        simp only [specLogicalPath]
        rw [if_neg hb]
      rw [hstep, hsel, ih seen cands]

/-- C4: the fold implementing `discoverS3Databases` computes exactly the
claim's characterization: one candidate per distinct logical path (the
portion of a backup key before `/generations/`, where a key is a backup
iff it contains both `/generations/` and `/snapshots/`) that matches the
doublestar pattern relative to `basePrefix`, in first-seen order, with
local path `outputDir` joined with the logical path's basename when an
output directory is given. -/
theorem discoverS3Databases_spec :
    ∀ (bucket basePre pattern outputDir : String)
      (matchFn : String → String → Option Bool) (keys : List String),
      outputDir ≠ "" → pattern ≠ "" →
      discoverS3Databases bucket basePre pattern outputDir matchFn keys =
        discoverCandidatesSpec bucket basePre pattern outputDir matchFn keys := by
  intro bucket basePre pattern outputDir matchFn keys hout hpat
  unfold discoverS3Databases discoverCandidatesSpec dedupKeepFirst
  rw [discover_go hout hpat keys [] []]
  simp

/-- C4 (witness for `discoverS3Databases_spec`): the spec's bucket-listing
scenario (three snapshot keys under two logical paths, output directory
`/out`) produces exactly the two claimed candidates. -/
theorem discoverS3Databases_spec_witness :
    discoverS3Databases "bucket" "acme/" "**" "/out" (fun _ _ => some true)
        ["acme/db1.db/generations/0/snapshots/0.ltx",
         "acme/db1.db/generations/0/snapshots/1.ltx",
         "acme/db2.db/generations/0/snapshots/0.ltx"] =
      discoverCandidatesSpec "bucket" "acme/" "**" "/out" (fun _ _ => some true)
        ["acme/db1.db/generations/0/snapshots/0.ltx",
         "acme/db1.db/generations/0/snapshots/1.ltx",
         "acme/db2.db/generations/0/snapshots/0.ltx"] ∧
    discoverCandidatesSpec "bucket" "acme/" "**" "/out" (fun _ _ => some true)
        ["acme/db1.db/generations/0/snapshots/0.ltx",
         "acme/db1.db/generations/0/snapshots/1.ltx",
         "acme/db2.db/generations/0/snapshots/0.ltx"] =
      [⟨"/out/db1.db", "s3://bucket/acme/db1.db"⟩,
       ⟨"/out/db2.db", "s3://bucket/acme/db2.db"⟩] :=
  ⟨discoverS3Databases_spec "bucket" "acme/" "**" "/out" (fun _ _ => some true)
      ["acme/db1.db/generations/0/snapshots/0.ltx",
       "acme/db1.db/generations/0/snapshots/1.ltx",
       "acme/db2.db/generations/0/snapshots/0.ltx"] (by decide) (by decide),
   by decide⟩

/-! ### Lemmas about the connection pool -/

/-- The `closeFails` flag carried by a pool operation (only `get` creates
connections; other operations carry none). -/
def opCloseFails : PoolOp → Bool
  | .get _ _ _ closeFails => closeFails
  | _ => false

/-- Strengthened well-formedness of a pool state, preserved by every
operation whose connection closes succeed. -/
structure PoolWF (s : PoolState) : Prop where
  max_pos : 1 ≤ s.maxConnections
  conn_nodup : (s.connections.map PoolConn.path).Nodup
  lru_nodup : s.lru.Nodup
  mem_iff : ∀ p, p ∈ s.lru ↔ p ∈ s.connections.map PoolConn.path
  open_eq : s.currentOpen = s.connections.length
  opened_eq : s.totalOpened = s.totalClosed + s.currentOpen
  open_le : s.currentOpen ≤ s.maxConnections
  closes_ok : ∀ c ∈ s.connections, c.closeFails = false

theorem connFind_eq_none {cs : List PoolConn} {path : String} :
    connFind path cs = none ↔ path ∉ cs.map PoolConn.path := by
  induction cs with
  | nil => simp [connFind]
  | cons c rest ih =>
    simp only [connFind, List.map, List.mem_cons]
    split
    · rename_i hc
      simp [hc]
    · rename_i hc
      simp only [ih]
      constructor
      · intro h hmem
        rcases hmem with hmem | hmem
        · exact hc hmem.symm
        · exact h hmem
      · intro h hmem
        exact h (Or.inr hmem)

theorem connFind_some {cs : List PoolConn} {path : String} {c : PoolConn}
    (h : connFind path cs = some c) : c ∈ cs ∧ c.path = path := by
  induction cs with
  | nil => simp [connFind] at h
  | cons c0 rest ih =>
    simp only [connFind] at h
    split at h
    · rename_i hc
      cases h
      exact ⟨List.mem_cons_self _ _, hc⟩
    · obtain ⟨h1, h2⟩ := ih h
      exact ⟨List.mem_cons_of_mem _ h1, h2⟩

theorem connFind_of_mem {cs : List PoolConn} {path : String}
    (h : path ∈ cs.map PoolConn.path) : ∃ c, connFind path cs = some c := by
  cases hf : connFind path cs with
  | none => exact absurd h (connFind_eq_none.mp hf)
  | some c => exact ⟨c, rfl⟩

theorem connRemove_map_path {cs : List PoolConn} {path : String} :
    (connRemove path cs).map PoolConn.path = (cs.map PoolConn.path).erase path := by
  induction cs with
  | nil => rfl
  | cons c rest ih =>
    simp only [connRemove, List.map, List.erase_cons]
    split
    · rename_i hc
      rw [if_pos (by simp [hc])]
    · rename_i hc
      rw [if_neg (by simp [hc])]
      simp [ih]

theorem connRemove_sublist {cs : List PoolConn} {path : String} :
    (connRemove path cs).Sublist cs := by
  induction cs with
  | nil => simp [connRemove]
  | cons c rest ih =>
    simp only [connRemove]
    split
    · exact List.sublist_cons_self c rest
    · exact List.Sublist.cons₂ c ih

theorem connRemove_length {cs : List PoolConn} {path : String} {c : PoolConn}
    (h : connFind path cs = some c) :
    (connRemove path cs).length + 1 = cs.length := by
  induction cs with
  | nil => simp [connFind] at h
  | cons c0 rest ih =>
    simp only [connFind] at h
    simp only [connRemove]
    split at h <;> rename_i hc
    · rw [if_pos hc]
      simp
    · rw [if_neg hc]
      simp only [List.length_cons]
      rw [← ih h]

theorem connUpdate_map_path {cs : List PoolConn} {path : String}
    {f : PoolConn → PoolConn} (hf : ∀ c, (f c).path = c.path) :
    (connUpdate path f cs).map PoolConn.path = cs.map PoolConn.path := by
  induction cs with
  | nil => rfl
  | cons c rest ih =>
    simp only [connUpdate, List.map] at ih ⊢
    split
    · simp [hf, ih]
    · simp [ih]

theorem connUpdate_length {cs : List PoolConn} {path : String}
    {f : PoolConn → PoolConn} :
    (connUpdate path f cs).length = cs.length := by
  simp [connUpdate]

theorem connUpdate_closes_ok {cs : List PoolConn} {path : String}
    {f : PoolConn → PoolConn} (hf : ∀ c, (f c).closeFails = c.closeFails)
    (h : ∀ c ∈ cs, c.closeFails = false) :
    ∀ c ∈ connUpdate path f cs, c.closeFails = false := by
  intro c hc
  obtain ⟨c0, hc0, rfl⟩ := List.mem_map.mp hc
  split
  · rw [hf]
    exact h c0 hc0
  · exact h c0 hc0

theorem lruTouch_mem {l : List String} {key p : String} :
    p ∈ lruTouch key l ↔ p ∈ l := by
  unfold lruTouch
  split
  · rename_i hk
    simp only [List.mem_cons]
    constructor
    · rintro (rfl | hp)
      · exact hk
      · exact List.mem_of_mem_erase hp
    · intro hp
      by_cases hpk : p = key
      · exact Or.inl hpk
      · exact Or.inr (List.mem_erase_of_ne hpk |>.mpr hp)
  · exact Iff.rfl

theorem lruTouch_nodup {l : List String} {key : String} (h : l.Nodup) :
    (lruTouch key l).Nodup := by
  unfold lruTouch
  split
  · exact List.nodup_cons.mpr ⟨fun hc => ((h.mem_erase_iff).mp hc).1 rfl, h.erase key⟩
  · exact h

theorem lruAdd_not_mem {l : List String} {key : String} (h : key ∉ l) :
    lruAdd key l = key :: l := by
  unfold lruAdd
  rw [if_neg h]

theorem close_eq_none {s : PoolState} {path : String}
    (hf : connFind path s.connections = none) :
    closeConnectionLocked s path = s := by
  simp only [closeConnectionLocked, hf]

theorem close_eq_some {s : PoolState} {path : String} {c : PoolConn}
    (hf : connFind path s.connections = some c) (hcf : c.closeFails = false) :
    closeConnectionLocked s path =
      { s with connections := connRemove path s.connections,
               lru := s.lru.erase path,
               currentOpen := s.currentOpen - 1,
               totalClosed := s.totalClosed + 1 } := by
  simp only [closeConnectionLocked, hf]
  rw [if_neg (by simp [hcf])]

theorem poolWF_close {s : PoolState} (hWF : PoolWF s) (path : String) :
    PoolWF (closeConnectionLocked s path) := by
  cases hf : connFind path s.connections with
  | none => rw [close_eq_none hf]; exact hWF
  | some c =>
    obtain ⟨hcmem, hcpath⟩ := connFind_some hf
    have hcf := hWF.closes_ok c hcmem
    rw [close_eq_some hf hcf]
    have hlen := connRemove_length hf
    have hopen := hWF.open_eq
    have hopened := hWF.opened_eq
    have hle := hWF.open_le
    refine ⟨hWF.max_pos, ?_, hWF.lru_nodup.erase path, ?_, ?_, ?_, ?_, ?_⟩
    · rw [connRemove_map_path]
      exact hWF.conn_nodup.erase path
    · intro p
      show p ∈ s.lru.erase path ↔ p ∈ (connRemove path s.connections).map PoolConn.path
      rw [connRemove_map_path, List.Nodup.mem_erase_iff hWF.lru_nodup,
        List.Nodup.mem_erase_iff hWF.conn_nodup]
      exact and_congr_right (fun _ => hWF.mem_iff p)
    · show s.currentOpen - 1 = (connRemove path s.connections).length
      omega
    · show s.totalOpened = s.totalClosed + 1 + (s.currentOpen - 1)
      omega
    · show s.currentOpen - 1 ≤ s.maxConnections
      omega
    · intro c' hc'
      exact hWF.closes_ok c' (connRemove_sublist.subset hc')

theorem poolWF_closes :
    ∀ (l : List String) (s : PoolState), PoolWF s →
      PoolWF (l.foldl closeConnectionLocked s) := by
  intro l
  induction l with
  | nil => intro s h; exact h
  | cons p rest ih =>
    intro s h
    exact ih (closeConnectionLocked s p) (poolWF_close h p)

theorem poolWF_cleanup {s : PoolState} {now : Nat} (hWF : PoolWF s) :
    PoolWF (poolCleanup s now) := by
  unfold poolCleanup
  exact poolWF_closes _ s hWF

theorem poolWF_release {s : PoolState} {path : String} {now : Nat}
    (hWF : PoolWF s) : PoolWF (poolRelease s path now) := by
  unfold poolRelease
  have hmp := @connUpdate_map_path s.connections path
    (fun c => { c with lastUsed := now }) (fun c => rfl)
  refine ⟨hWF.max_pos, ?_, hWF.lru_nodup, ?_, ?_, hWF.opened_eq, hWF.open_le, ?_⟩
  · show ((connUpdate path _ s.connections).map PoolConn.path).Nodup
    rw [hmp]
    exact hWF.conn_nodup
  · intro p
    show p ∈ s.lru ↔ _
    rw [hmp]
    exact hWF.mem_iff p
  · show s.currentOpen = _
    rw [connUpdate_length]
    exact hWF.open_eq
  · exact @connUpdate_closes_ok s.connections path
      (fun c => { c with lastUsed := now }) (fun c => rfl) hWF.closes_ok

theorem poolWF_insert {t : PoolState} {path : String} {now : Nat} {cf : Bool}
    (hWF : PoolWF t) (hroom : t.currentOpen < t.maxConnections)
    (hnot : path ∉ t.connections.map PoolConn.path) (hcf : cf = false) :
    PoolWF { t with
      connections := { path := path, openedAt := now, lastUsed := now,
                       useCount := 1, closeFails := cf } :: t.connections,
      lru := lruAdd path t.lru,
      currentOpen := t.currentOpen + 1,
      totalOpened := t.totalOpened + 1 } := by
  have hnl : path ∉ t.lru := fun hc => hnot ((hWF.mem_iff path).mp hc)
  rw [lruAdd_not_mem hnl]
  have hopened := hWF.opened_eq
  refine ⟨hWF.max_pos, ?_, List.nodup_cons.mpr ⟨hnl, hWF.lru_nodup⟩, ?_, ?_, ?_, ?_, ?_⟩
  · show (path :: t.connections.map PoolConn.path).Nodup
    exact List.nodup_cons.mpr ⟨hnot, hWF.conn_nodup⟩
  · intro p
    show p ∈ path :: t.lru ↔ p ∈ path :: t.connections.map PoolConn.path
    simp only [List.mem_cons]
    exact or_congr Iff.rfl (hWF.mem_iff p)
  · show t.currentOpen + 1 = t.connections.length + 1
    rw [hWF.open_eq]
  · show t.totalOpened + 1 = t.totalClosed + (t.currentOpen + 1)
    omega
  · show t.currentOpen + 1 ≤ t.maxConnections
    omega
  · intro c hc
    rcases List.mem_cons.mp hc with rfl | hc'
    · exact hcf
    · exact hWF.closes_ok c hc'

theorem poolWF_evicted {s : PoolState} (hWF : PoolWF s)
    (hcap : s.currentOpen ≥ s.maxConnections) :
    ∃ last, lruEvict s.lru = some (last, s.lru.dropLast) ∧
      PoolWF (closeConnectionLocked { s with lru := s.lru.dropLast } last) ∧
      (closeConnectionLocked { s with lru := s.lru.dropLast } last).currentOpen + 1 =
        s.currentOpen ∧
      (closeConnectionLocked { s with lru := s.lru.dropLast } last).maxConnections =
        s.maxConnections ∧
      ∀ q, q ∈ (closeConnectionLocked { s with lru := s.lru.dropLast }
          last).connections.map PoolConn.path →
        q ∈ s.connections.map PoolConn.path := by
  have hopen := hWF.open_eq
  have hmax := hWF.max_pos
  have hlen0 : 1 ≤ s.connections.length := by omega
  have hcs : s.connections ≠ [] := by
    intro h
    rw [h] at hlen0
    simp at hlen0
  obtain ⟨c0, hc0⟩ := List.exists_mem_of_ne_nil _ hcs
  have hlru_ne : s.lru ≠ [] := by
    intro h
    have hm := (hWF.mem_iff c0.path).mpr (List.mem_map_of_mem PoolConn.path hc0)
    rw [h] at hm
    exact absurd hm (List.not_mem_nil _)
  have hlast? : s.lru.getLast? = some (s.lru.getLast hlru_ne) :=
    List.getLast?_eq_getLast _ hlru_ne
  have hev : lruEvict s.lru = some (s.lru.getLast hlru_ne, s.lru.dropLast) := by
    unfold lruEvict
    rw [hlast?]
  have hlast_mem : s.lru.getLast hlru_ne ∈ s.lru := List.getLast_mem hlru_ne
  have hlast_conn : s.lru.getLast hlru_ne ∈ s.connections.map PoolConn.path :=
    (hWF.mem_iff _).mp hlast_mem
  obtain ⟨c, hcfind⟩ := connFind_of_mem hlast_conn
  obtain ⟨hcmem, hcpath⟩ := connFind_some hcfind
  have hccf := hWF.closes_ok c hcmem
  have hsplit : s.lru.dropLast ++ [s.lru.getLast hlru_ne] = s.lru :=
    List.dropLast_append_getLast hlru_ne
  have hnodup_split : (s.lru.dropLast ++ [s.lru.getLast hlru_ne]).Nodup := by
    rw [hsplit]
    exact hWF.lru_nodup
  have hlast_not : s.lru.getLast hlru_ne ∉ s.lru.dropLast := fun hmem =>
    (List.disjoint_of_nodup_append hnodup_split) hmem (List.mem_singleton_self _)
  have hdnodup : s.lru.dropLast.Nodup := (List.nodup_append.mp hnodup_split).1
  have hclose : closeConnectionLocked { s with lru := s.lru.dropLast }
      (s.lru.getLast hlru_ne) =
      { s with connections := connRemove (s.lru.getLast hlru_ne) s.connections,
               lru := s.lru.dropLast,
               currentOpen := s.currentOpen - 1,
               totalClosed := s.totalClosed + 1 } := by
    rw [@close_eq_some { s with lru := s.lru.dropLast } _ _ hcfind hccf]
    rw [List.erase_of_not_mem hlast_not]
  have hremlen := connRemove_length hcfind
  have hopened := hWF.opened_eq
  have hle := hWF.open_le
  refine ⟨s.lru.getLast hlru_ne, hev, ?_, ?_, ?_, ?_⟩
  · rw [hclose]
    refine ⟨hWF.max_pos, ?_, hdnodup, ?_, ?_, ?_, ?_, ?_⟩
    · show ((connRemove (s.lru.getLast hlru_ne) s.connections).map PoolConn.path).Nodup
      rw [connRemove_map_path]
      exact hWF.conn_nodup.erase _
    · intro p
      show p ∈ s.lru.dropLast ↔
        p ∈ (connRemove (s.lru.getLast hlru_ne) s.connections).map PoolConn.path
      rw [connRemove_map_path, List.Nodup.mem_erase_iff hWF.conn_nodup]
      constructor
      · intro hp
        have hne : p ≠ s.lru.getLast hlru_ne := fun hc => hlast_not (hc ▸ hp)
        have hpl : p ∈ s.lru := by
          rw [← hsplit]
          exact List.mem_append_left _ hp
        exact ⟨hne, (hWF.mem_iff p).mp hpl⟩
      · rintro ⟨hne, hmap⟩
        have hpl : p ∈ s.lru := (hWF.mem_iff p).mpr hmap
        rw [← hsplit] at hpl
        rcases List.mem_append.mp hpl with hp | hp
        · exact hp
        · exact absurd (List.mem_singleton.mp hp) hne
    · show s.currentOpen - 1 = (connRemove (s.lru.getLast hlru_ne) s.connections).length
      omega
    · show s.totalOpened = s.totalClosed + 1 + (s.currentOpen - 1)
      omega
    · show s.currentOpen - 1 ≤ s.maxConnections
      omega
    · intro c' hc'
      exact hWF.closes_ok c' (connRemove_sublist.subset hc')
  · rw [hclose]
    show s.currentOpen - 1 + 1 = s.currentOpen
    omega
  · rw [hclose]
  · rw [hclose]
    intro q hq
    show q ∈ s.connections.map PoolConn.path
    rw [connRemove_map_path] at hq
    exact List.mem_of_mem_erase hq

theorem poolGet_eq_hit {s : PoolState} {path : String} {now : Nat}
    {openOk cf : Bool} {c : PoolConn}
    (hf : connFind path s.connections = some c) :
    poolGet s path now openOk cf =
      { s with
        connections := connUpdate path
          (fun c => { c with lastUsed := now, useCount := c.useCount + 1 })
          s.connections,
        lru := lruTouch path s.lru } := by
  simp only [poolGet, hf]

theorem poolWF_get {s : PoolState} {path : String} {now : Nat}
    {openOk cf : Bool} (hWF : PoolWF s) (hcf : cf = false) :
    PoolWF (poolGet s path now openOk cf) := by
  cases hfind : connFind path s.connections with
  | some c =>
    rw [poolGet_eq_hit hfind]
    have hmp := @connUpdate_map_path s.connections path
      (fun c => { c with lastUsed := now, useCount := c.useCount + 1 })
      (fun c => rfl)
    refine ⟨hWF.max_pos, ?_, lruTouch_nodup hWF.lru_nodup, ?_, ?_, hWF.opened_eq,
      hWF.open_le, ?_⟩
    · show ((connUpdate path _ s.connections).map PoolConn.path).Nodup
      rw [hmp]
      exact hWF.conn_nodup
    · intro p
      show p ∈ lruTouch path s.lru ↔ _
      rw [lruTouch_mem, hmp]
      exact hWF.mem_iff p
    · show s.currentOpen = _
      rw [connUpdate_length]
      exact hWF.open_eq
    · exact @connUpdate_closes_ok s.connections path
        (fun c => { c with lastUsed := now, useCount := c.useCount + 1 })
        (fun c => rfl) hWF.closes_ok
  | none =>
    have hnot : path ∉ s.connections.map PoolConn.path := connFind_eq_none.mp hfind
    by_cases hcap : s.currentOpen ≥ s.maxConnections
    · obtain ⟨last, hev, hWF1, hcur1, hmax1, hsub1⟩ := poolWF_evicted hWF hcap
      have heq : poolGet s path now openOk cf =
          (if openOk then
            { closeConnectionLocked { s with lru := s.lru.dropLast } last with
              connections := { path := path, openedAt := now, lastUsed := now,
                               useCount := 1, closeFails := cf } ::
                (closeConnectionLocked { s with lru := s.lru.dropLast }
                  last).connections,
              lru := lruAdd path (closeConnectionLocked { s with lru := s.lru.dropLast }
                last).lru,
              currentOpen := (closeConnectionLocked { s with lru := s.lru.dropLast }
                last).currentOpen + 1,
              totalOpened := (closeConnectionLocked { s with lru := s.lru.dropLast }
                last).totalOpened + 1 }
           else closeConnectionLocked { s with lru := s.lru.dropLast } last) := by
        simp only [poolGet, hfind, hev]
        rw [if_pos hcap]
      rw [heq]
      have hnot1 : path ∉ (closeConnectionLocked { s with lru := s.lru.dropLast }
          last).connections.map PoolConn.path := fun hc => hnot (hsub1 path hc)
      have hroom1 : (closeConnectionLocked { s with lru := s.lru.dropLast }
          last).currentOpen <
          (closeConnectionLocked { s with lru := s.lru.dropLast } last).maxConnections := by
        rw [hmax1]
        have := hWF.open_le
        omega
      cases openOk with
      | true =>
        rw [if_pos rfl]
        exact poolWF_insert hWF1 hroom1 hnot1 hcf
      | false =>
        rw [if_neg (by simp)]
        exact hWF1
    · have heq : poolGet s path now openOk cf =
          (if openOk then
            { s with
              connections := { path := path, openedAt := now, lastUsed := now,
                               useCount := 1, closeFails := cf } :: s.connections,
              lru := lruAdd path s.lru,
              currentOpen := s.currentOpen + 1,
              totalOpened := s.totalOpened + 1 }
           else s) := by
        simp only [poolGet, hfind]
        rw [if_neg hcap]
      rw [heq]
      cases openOk with
      | true =>
        rw [if_pos rfl]
        exact poolWF_insert hWF (by omega) hnot hcf
      | false =>
        rw [if_neg (by simp)]
        exact hWF

theorem poolWF_apply {s : PoolState} {op : PoolOp} (hWF : PoolWF s)
    (hop : opCloseFails op = false) : PoolWF (poolApply s op) := by
  cases op with
  | get path now openOk closeFails =>
    simp only [opCloseFails] at hop
    exact poolWF_get hWF hop
  | release path now => exact poolWF_release hWF
  | close path => exact poolWF_close hWF path
  | cleanup now => exact poolWF_cleanup hWF

theorem poolWF_run :
    ∀ (ops : List PoolOp) (s : PoolState), PoolWF s →
      (∀ op ∈ ops, opCloseFails op = false) → PoolWF (runPool s ops) := by
  intro ops
  induction ops with
  | nil => intro s h _; exact h
  | cons op rest ih =>
    intro s h hops
    exact ih (poolApply s op) (poolWF_apply h (hops op (List.mem_cons_self _ _)))
      (fun op' h' => hops op' (List.mem_cons_of_mem _ h'))

/-- C5 (amended): for every pool with capacity at least 1 and every
sequence of completed operations from the empty pool in which every
connection close (the `onClose` callback and the handle close) succeeds,
the claimed invariants hold: `currentOpen ≤ maxConnections`, the LRU list
holds exactly the open paths, and `totalOpened − totalClosed ==
currentOpen` (a failing close during `Get`'s LRU eviction breaks the
first two, because the eviction removes the LRU node before the close and
the failed close returns early without removing the map entry or
decrementing the counter while the new connection is still opened). -/
theorem connectionPool_inv :
    ∀ (maxC idleT : Nat) (ops : List PoolOp),
      1 ≤ maxC →
      (∀ op ∈ ops, opCloseFails op = false) →
      poolInv (runPool (emptyPool maxC idleT) ops) := by
  intro maxC idleT ops hmax hops
  have h0 : PoolWF (emptyPool maxC idleT) := by
    refine ⟨hmax, ?_, ?_, ?_, rfl, rfl, ?_, ?_⟩ <;> simp [emptyPool]
  have h := poolWF_run ops _ h0 hops
  exact ⟨h.open_le, h.mem_iff, h.opened_eq⟩

/-- C5 (witness for `connectionPool_inv`): a capacity-1 pool driven
through two gets (the second evicting the first) and a cleanup, with all
closes succeeding, satisfies the invariants. -/
theorem connectionPool_inv_witness :
    poolInv (runPool (emptyPool 1 5)
      [PoolOp.get "a" 0 true false, PoolOp.get "b" 1 true false,
       PoolOp.cleanup 100]) :=
  connectionPool_inv 1 5
    [PoolOp.get "a" 0 true false, PoolOp.get "b" 1 true false, PoolOp.cleanup 100]
    (by decide) (by decide)

end Litestreampp
